import Mathlib

/-!
Verification of the Gambly card-game backend against its design spec.

The development shallowly embeds the Python sources:
* `src/money_utils.py` — decimal cent rounding (modelled over `ℚ`; `Decimal`
  arithmetic is exact, so rationals are a faithful carrier);
* `src/poker_engine.py` — the Texas Hold'em hand state machine (money in
  integer cents modelled as `ℤ`, matching Python's unbounded ints; the only
  effect of the `seed` argument is the deck permutation, so functions take
  the shuffled deck as an explicit parameter);
* `src/poker_bots.py` — the rule-based bot policy (the single
  `random.random()` call is passed in as an explicit rational parameter);
* `src/storage.py` — the blackjack LAN round settlement and turn-timeout
  ejection (wall-clock reads `time.time()` are passed in as an explicit
  `now` parameter).
-/

namespace Gambly

/-! ## Money rounding (`src/money_utils.py`)

`Decimal.quantize(CENT, ROUND_DOWN)` rounds toward zero at two decimal
places and `ROUND_UP` rounds away from zero; `quantizeTowardZero` and
`quantizeAwayFromZero` embed those two primitives over `ℚ`. -/

def quantizeTowardZero (x : ℚ) : ℚ :=
  ((if 0 ≤ x then ⌊100 * x⌋ else ⌈100 * x⌉ : ℤ) : ℚ) / 100

def quantizeAwayFromZero (x : ℚ) : ℚ :=
  ((if 0 ≤ x then ⌈100 * x⌉ else ⌊100 * x⌋ : ℤ) : ℚ) / 100

/-- `house_round_credit`: quantize at cent granularity with `ROUND_DOWN`
(toward zero). -/
def house_round_credit (x : ℚ) : ℚ := quantizeTowardZero x

/-- `house_round_charge`: quantize at cent granularity with `ROUND_UP`
(away from zero). -/
def house_round_charge (x : ℚ) : ℚ := quantizeAwayFromZero x

/-- `house_round_delta`: nonnegative deltas are quantized `ROUND_DOWN`,
negative deltas as the negated `ROUND_UP` quantization of their absolute
value. -/
def house_round_delta (x : ℚ) : ℚ :=
  if 0 ≤ x then quantizeTowardZero x else -(quantizeAwayFromZero |x|)

/-- `house_round_balance`: nonnegative balances are quantized `ROUND_DOWN`,
negative balances `ROUND_UP` (both applied to the signed value). -/
def house_round_balance (x : ℚ) : ℚ :=
  if 0 ≤ x then quantizeTowardZero x else quantizeAwayFromZero x

/-! ## Cards and the hand-ranking evaluator (`src/poker_engine.py`)

A card string `"AS"` is embedded as its rank value (`RANK_TO_VALUE`,
`2`–`14`) paired with a suit code (`0`–`3` for `SHDC`).  Scores are the
Python result tuples embedded as `List ℕ`; Lean's lexicographic order on
lists coincides with Python tuple comparison (shorter prefix compares
less). -/

structure Card where
  rank : ℕ
  suit : ℕ
deriving DecidableEq, Repr

/-- Descending insertion sort, used where Python calls `sorted(-, reverse=True)`
on naturals. -/
def insertDesc (a : ℕ) : List ℕ → List ℕ
  | [] => [a]
  | b :: bs => if b ≤ a then a :: b :: bs else b :: insertDesc a bs

def sortDesc (l : List ℕ) : List ℕ := l.foldr insertDesc []

/-- Descending insertion sort on pairs under the lexicographic product order,
used for `sorted(groups, reverse=True)`. -/
def insertDescPair (a : ℕ × ℕ) : List (ℕ × ℕ) → List (ℕ × ℕ)
  | [] => [a]
  | b :: bs =>
    if b.1 < a.1 ∨ (b.1 = a.1 ∧ b.2 ≤ a.2) then a :: b :: bs
    else b :: insertDescPair a bs

def sortDescPair (l : List (ℕ × ℕ)) : List (ℕ × ℕ) := l.foldr insertDescPair []

/-- `_rank_counts`: the multiset of rank multiplicities, one entry per
distinct rank (dict order is irrelevant: the caller sorts). -/
def rankCounts (cards : List Card) : List (ℕ × ℕ) :=
  ((cards.map Card.rank).dedup).map
    (fun r => (r, (cards.filter (fun c => c.rank = r)).length))

/-- The scan inside `_is_straight`: over the strictly descending list of
distinct values, find the first 5-window whose endpoints differ by 4. -/
def straightHigh : List ℕ → Option ℕ
  | a :: b :: c :: d :: e :: rest =>
    if a - e = 4 then some a else straightHigh (b :: c :: d :: e :: rest)
  | _ => none

/-- `_is_straight` applied to the five card values: distinct values sorted
descending, with a low ace (`1`) appended when an ace is present. -/
def isStraight (values : List ℕ) : Option ℕ :=
  let uniq := sortDesc values.dedup
  let uniq := if 14 ∈ values then uniq ++ [1] else uniq
  straightHigh uniq

/-- `evaluate_five`: category plus tiebreak kickers for exactly five cards. -/
def evaluateFive (cards : List Card) : List ℕ :=
  let values := sortDesc (cards.map Card.rank)
  let flush : Bool := (cards.map Card.suit).dedup.length == 1
  let highStraight := isStraight (cards.map Card.rank)
  let groups := sortDescPair ((rankCounts cards).map (fun p => (p.2, p.1)))
  match highStraight, flush with
  | some hs, true => [8, hs]
  | _, _ =>
    match groups with
    | (4, four) :: _ =>
      [7, four, ((values.filter (fun v => v ≠ four)).headD 0)]
    | (3, trips) :: (2, pair) :: _ => [6, trips, pair]
    | g0 :: grest =>
      if flush then 5 :: values
      else match highStraight with
      | some hs => [4, hs]
      | none =>
        if g0.1 = 3 then
          3 :: g0.2 :: values.filter (fun v => v ≠ g0.2)
        else if g0.1 = 2 then
          match grest with
          | (2, p2) :: _ =>
            let pairHigh := max g0.2 p2
            let pairLow := min g0.2 p2
            [2, pairHigh, pairLow,
              ((values.filter (fun v => v ≠ pairHigh ∧ v ≠ pairLow)).headD 0)]
          | _ => 1 :: g0.2 :: values.filter (fun v => v ≠ g0.2)
        else 0 :: values
    | [] => 0 :: values

/-- `evaluate_best_seven`: the maximal `evaluateFive` score over all 5-card
subsets (`none` only when fewer than five cards are supplied). -/
def evaluateBestSeven (cards : List Card) : Option (List ℕ) :=
  ((cards.sublistsLen 5).map evaluateFive).foldl
    (fun best s =>
      match best with
      | none => some s
      | some b => if b < s then some s else some b)
    none

/-! ## Poker hand state machine (`src/poker_engine.py`)

Money is integer cents (`ℤ`, matching Python's unbounded ints; callers of
the Python API pass dollars through `to_cents`, so the embedded functions
take cents directly).  The deck list keeps Python's order: `deck.pop()`
removes the last element. -/

inductive Street where
  | preflop
  | flop
  | turn
  | river
  | showdown
  | finished
deriving DecidableEq, Repr

structure LogEntry where
  player : String
  street : Street
  action : String
  amount : Option ℤ
deriving DecidableEq, Repr

structure ResultInfo where
  rtype : String
  winners : List (String × ℤ)
  pots : List (ℤ × List String)
deriving DecidableEq, Repr

structure Player where
  name : String
  stack : ℤ
  hole : List Card
  folded : Bool
  allIn : Bool
  streetCommit : ℤ
  committedTotal : ℤ
deriving DecidableEq, Repr

structure HandState where
  players : List Player
  smallBlind : ℤ
  bigBlind : ℤ
  dealerIndex : ℕ
  deck : List Card
  board : List Card
  street : Street
  currentBet : ℤ
  minRaise : ℤ
  tableMinRaise : ℤ
  actingIndex : Option ℕ
  pendingToAct : List String
  pot : ℤ
  result : Option ResultInfo
  winner : Option String
  actionLog : List LogEntry
deriving DecidableEq, Repr

/-- In-place update of the element at an index, as Python's mutation of
`players[idx]`. -/
def listModify {α : Type} (f : α → α) : ℕ → List α → List α
  | _, [] => []
  | 0, a :: as => f a :: as
  | n + 1, a :: as => a :: listModify f n as

/-- `list.pop()`: remove and return the LAST element. -/
def popLast {α : Type} (l : List α) : Option (α × List α) :=
  match l.getLast? with
  | none => none
  | some a => some (a, l.dropLast)

/-- The search loop shared by `_next_active_index` and `_next_seated_index`:
try offsets `1..count` from `start`, modulo the seat count. -/
def nextIndexSatisfying (players : List Player) (start : ℕ) (ok : Player → Bool) :
    Option ℕ :=
  (List.range players.length).findSome? (fun off =>
    let idx := (start + off + 1) % players.length
    match players.get? idx with
    | some p => if ok p then some idx else none
    | none => none)

def nextActiveIndex (players : List Player) (start : ℕ) : Option ℕ :=
  nextIndexSatisfying players start (fun p => !p.folded && !p.allIn)

def nextSeatedIndex (players : List Player) (start : ℕ) : Option ℕ :=
  nextIndexSatisfying players start (fun p => 0 < p.stack)

/-- `_eligible_to_act_players`. -/
def eligiblePlayers (players : List Player) : List String :=
  (players.filter (fun p => !p.folded && !p.allIn)).map Player.name

def eligibleToAct (st : HandState) : List String := eligiblePlayers st.players

/-- `set.discard` on the pending-to-act set (held as a list of names). -/
def removeName (l : List String) (nm : String) : List String :=
  l.filter (fun x => x ≠ nm)

def sumCommitted (players : List Player) : ℤ :=
  (players.map Player.committedTotal).sum

/-- `_collect_uncontested`: when exactly one player is un-folded, that player
takes the sum of all committed totals and the hand finishes. -/
def collectUncontested (st : HandState) : Option HandState :=
  match st.players.filter (fun p => !p.folded) with
  | [w] =>
    let pot := sumCommitted st.players
    some { st with
      players := st.players.map (fun p =>
        if p.folded then p else { p with stack := p.stack + pot }),
      pot := 0,
      street := .finished,
      winner := some w.name,
      result := some ⟨"uncontested", [(w.name, pot)], [(pot, [w.name])]⟩ }
  | _ => none

structure SidePot where
  amount : ℤ
  participants : List String
  eligible : List String
deriving DecidableEq, Repr

def insertAscZ (a : ℤ) : List ℤ → List ℤ
  | [] => [a]
  | b :: bs => if a ≤ b then a :: b :: bs else b :: insertAscZ a bs

def sortAscZ (l : List ℤ) : List ℤ := l.foldr insertAscZ []

/-- `_build_side_pots`: contribution levels sorted ascending; each level
boundary yields one pot layer among the players who contributed at least
that much, with the non-folded ones eligible. -/
def buildSidePots (st : HandState) : List SidePot :=
  let contrib := st.players.map (fun p => (p.name, p.committedTotal))
  let levels := sortAscZ (((contrib.map Prod.snd).filter (fun v => 0 < v)).dedup)
  (levels.foldl (fun (acc : List SidePot × ℤ) level =>
    let participants := (contrib.filter (fun pr => level ≤ pr.2)).map Prod.fst
    let amount := (level - acc.2) * (participants.length : ℤ)
    let eligible := participants.filter (fun nm =>
      !((((st.players.find? (fun p => p.name == nm)).map Player.folded).getD false)))
    (if 0 < amount then acc.1 ++ [⟨amount, participants, eligible⟩] else acc.1,
     level)) (([], 0) : List SidePot × ℤ)).1

def bumpAssoc (l : List (String × ℤ)) (k : String) (v : ℤ) : List (String × ℤ) :=
  match l with
  | [] => [(k, v)]
  | (k1, v1) :: rest =>
    if k1 = k then (k1, v1 + v) :: rest else (k1, v1) :: bumpAssoc rest k v

def lookupAssoc (l : List (String × ℤ)) (k : String) : ℤ :=
  (((l.find? (fun pr => pr.1 == k)).map Prod.snd)).getD 0

/-- `_distribute_cents`: floor-split the layer among its winners; award the
one-unit remainders in seating order starting just after the dealer
(`dealer_index` is always an int for engine-created hands, so the `None`
fallback branch of the Python code is dead). -/
def distributeCents (amount : ℤ) (winners : List String) (st : HandState) :
    List (String × ℤ) :=
  if winners = [] then []
  else
    let n : ℤ := winners.length
    let base := amount.fdiv n
    let rem := amount.fmod n
    let payouts := winners.map (fun w => (w, base))
    if 0 < rem then
      let names := st.players.map Player.name
      let start := (st.dealerIndex + 1) % names.length
      let ordered := names.drop start ++ names.take start
      let order := ordered.filter (fun nm => nm ∈ winners)
      (order.take rem.toNat).foldl (fun acc nm => bumpAssoc acc nm 1) payouts
    else payouts

/-- Hole cards of the first player with the given name (always found for the
names fed in by the engine; Python's `next(...)` would raise otherwise). -/
def playerHole (players : List Player) (nm : String) : List Card :=
  (((players.find? (fun p => p.name == nm)).map Player.hole)).getD []

def scoreFor (st : HandState) (nm : String) : List ℕ :=
  (evaluateBestSeven (playerHole st.players nm ++ st.board)).getD []

/-- `run_showdown`: settle each side-pot layer among its best-scoring
eligible players (a layer with no eligible player is skipped), then add
the payouts back onto the stacks. -/
def runShowdown (st : HandState) : HandState :=
  let pots := buildSidePots st
  let step := pots.foldl (fun (acc : List (String × ℤ) × List (ℤ × List String)) pot =>
    if pot.eligible = [] then acc
    else
      let scores := pot.eligible.map (fun nm => scoreFor st nm)
      let best := scores.foldl (fun a b => if a < b then b else a) []
      let winners := pot.eligible.filter (fun nm => scoreFor st nm = best)
      let dist := distributeCents pot.amount winners st
      (dist.foldl (fun pacc pr => bumpAssoc pacc pr.1 pr.2) acc.1,
       acc.2 ++ [(pot.amount, winners)])) (([], []) : List (String × ℤ) × List (ℤ × List String))
  { st with
    players := st.players.map (fun p =>
      { p with stack := p.stack + lookupAssoc step.1 p.name }),
    pot := 0,
    street := .finished,
    result := some ⟨"showdown", step.1, step.2⟩ }

def burnCard (st : HandState) : HandState :=
  match popLast st.deck with
  | none => st
  | some pr => { st with deck := pr.2 }

/-- `_deal_board_card`. -/
def dealBoardCards (st : HandState) : ℕ → HandState
  | 0 => st
  | n + 1 =>
    match popLast st.deck with
    | none => dealBoardCards st n
    | some pr => dealBoardCards { st with deck := pr.2, board := st.board ++ [pr.1] } n

/-- The all-in run-out loop: burn then deal until the board has five cards.
Five fuel steps always suffice; Python's `while` loop would spin forever on
an exhausted deck, which no engine-reachable hand produces. -/
def fillBoard : ℕ → HandState → HandState
  | 0, st => st
  | n + 1, st =>
    if st.board.length < 5 then fillBoard n (dealBoardCards (burnCard st) 1)
    else st

def resumePending (st : HandState) : HandState :=
  { st with
    pendingToAct := eligibleToAct st,
    actingIndex := nextActiveIndex st.players st.dealerIndex }

/-- `_start_next_street`. -/
def startNextStreet (st : HandState) : HandState :=
  let alive := st.players.filter (fun p => !p.folded)
  if alive.length ≤ 1 then
    match collectUncontested st with
    | some st1 => st1
    | none => st
  else if alive.all (fun p => p.allIn) then
    runShowdown { (fillBoard 5 st) with street := .showdown }
  else
    let st1 := { st with
      players := st.players.map (fun (p : Player) => { p with streetCommit := 0 }),
      currentBet := 0,
      minRaise := st.tableMinRaise }
    match st1.street with
    | .preflop => resumePending { (dealBoardCards (burnCard st1) 3) with street := .flop }
    | .flop => resumePending { (dealBoardCards (burnCard st1) 1) with street := .turn }
    | .turn => resumePending { (dealBoardCards (burnCard st1) 1) with street := .river }
    | .river => runShowdown { st1 with street := .showdown }
    | _ => resumePending st1

/-- The acting-index scan at the end of `_maybe_advance` (`for _ in
range(len(players))`). -/
def advanceLoop : ℕ → HandState → HandState
  | 0, st => st
  | n + 1, st =>
    match st.actingIndex with
    | none => st
    | some idx =>
      match nextActiveIndex st.players idx with
      | none => st
      | some nidx =>
        if (((st.players.get? nidx).map Player.name).getD "") ∈ st.pendingToAct then
          { st with actingIndex := some nidx }
        else advanceLoop n { st with actingIndex := some nidx }

/-- `_maybe_advance`. -/
def maybeAdvance (st : HandState) : HandState :=
  if st.street = .showdown ∨ st.street = .finished then st
  else
    match collectUncontested st with
    | some st1 => st1
    | none =>
      if st.pendingToAct = [] then startNextStreet st
      else
        match st.actingIndex with
        | none => st
        | some idx =>
          match st.players.get? idx with
          | none => st
          | some actor =>
            if actor.name ∈ st.pendingToAct then st
            else advanceLoop st.players.length st

def dealHoleRound : List Player → List Card → List Player × List Card
  | [], deck => ([], deck)
  | p :: rest, deck =>
    if p.stack ≤ 0 then
      let r := dealHoleRound rest deck
      (p :: r.1, r.2)
    else
      match popLast deck with
      | none =>
        let r := dealHoleRound rest deck
        (p :: r.1, r.2)
      | some pr =>
        let r := dealHoleRound rest pr.2
        ({ p with hole := p.hole ++ [pr.1] } :: r.1, r.2)

def postBlind (players : List Player) (idx : ℕ) (blind : ℤ) : List Player :=
  listModify (fun p =>
    let posted := min p.stack blind
    let p1 := { p with stack := p.stack - posted,
                       streetCommit := p.streetCommit + posted,
                       committedTotal := p.committedTotal + posted }
    if p1.stack = 0 then { p1 with allIn := true } else p1) idx players

/-- `create_hand`, parameterized by the shuffled deck (the sole effect of
the Python `seed`).  Stacks arrive in cents; `None` is returned exactly when
fewer than two players have chips ("At least two players with chips are
required."). -/
def createHand (playerStacks : List (String × ℤ)) (smallBlind bigBlind : ℤ)
    (minRaiseOpt : Option ℤ) (dealerIndexRaw : ℤ) (deck : List Card) :
    Option HandState :=
  let players0 : List Player := playerStacks.map (fun pr =>
    { name := pr.1, stack := max 0 pr.2, hole := [], folded := false,
      allIn := false, streetCommit := 0, committedTotal := 0 })
  let active := (List.range players0.length).filter (fun i =>
    0 < (((players0.get? i).map Player.stack).getD 0))
  if active.length < 2 then none
  else
    let dealerIndex : ℕ :=
      if dealerIndexRaw < 0 ∨ (players0.length : ℤ) ≤ dealerIndexRaw then active.headD 0
      else dealerIndexRaw.toNat
    let minRaise := minRaiseOpt.getD bigBlind
    let r1 := dealHoleRound players0 deck
    let r2 := dealHoleRound r1.1 r1.2
    match nextSeatedIndex r2.1 dealerIndex with
    | none => none
    | some sbIdx =>
      match nextSeatedIndex r2.1 sbIdx with
      | none => none
      | some bbIdx =>
        let sb := max 1 smallBlind
        let bb := max 1 bigBlind
        let players3 := postBlind (postBlind r2.1 sbIdx sb) bbIdx bb
        let st : HandState := {
          players := players3,
          smallBlind := sb,
          bigBlind := bb,
          dealerIndex := dealerIndex,
          deck := r2.2,
          board := [],
          street := .preflop,
          currentBet := ((players3.get? bbIdx).map Player.streetCommit).getD 0,
          minRaise := max 1 minRaise,
          tableMinRaise := max 1 minRaise,
          actingIndex := nextActiveIndex players3 bbIdx,
          pendingToAct := eligiblePlayers players3,
          pot := sumCommitted players3,
          result := none,
          winner := none,
          actionLog := [] }
        some (maybeAdvance st)

def fromCents (n : ℤ) : ℚ := (n : ℚ) / 100

structure LegalInfo where
  actions : List String := []
  toCall : Option ℚ := none
  minBet : Option ℚ := none
  maxBet : Option ℚ := none
  minRaiseTo : Option ℚ := none
  maxRaiseTo : Option ℚ := none
deriving DecidableEq, Repr

/-- `legal_actions` (dollar figures exactly as Python's `from_cents`
produces them).  The `acting_index` `None`/out-of-range cases would raise in
Python and cannot be reached through the engine API; they yield the empty
action set here. -/
def legalActions (st : HandState) (playerName : String) : LegalInfo :=
  if st.street = .showdown ∨ st.street = .finished then {}
  else
    match st.actingIndex with
    | none => {}
    | some idx =>
      match st.players.get? idx with
      | none => {}
      | some actor =>
        if actor.name ≠ playerName then {}
        else
          match st.players.find? (fun p => p.name == playerName) with
          | none => {}
          | some player =>
            if player.folded || player.allIn then {}
            else
              let toCall := max 0 (st.currentBet - player.streetCommit)
              let stack := player.stack
              if toCall ≤ 0 then
                if 0 < stack then
                  { actions := ["fold", "check", "bet", "all_in"],
                    toCall := some (fromCents toCall),
                    minBet := some (fromCents st.bigBlind),
                    maxBet := some (fromCents stack) }
                else { actions := ["fold", "check"], toCall := some 0 }
              else
                { actions :=
                    if 0 < stack then
                      if toCall < stack then ["fold", "call", "raise", "all_in"]
                      else ["fold", "call"]
                    else ["fold"],
                  toCall := some (fromCents toCall),
                  minRaiseTo := some (fromCents (st.currentBet + st.minRaise)),
                  maxRaiseTo := some (fromCents (player.streetCommit + stack)) }

/-- Python's `str.strip()`, spelled out over the character list so that it
reduces inside the kernel. -/
def stripString (s : String) : String :=
  String.mk
    (((s.data.dropWhile Char.isWhitespace).reverse.dropWhile Char.isWhitespace).reverse)

/-- `str(action).strip().lower()` (ASCII lowering agrees with Python for
the action words). -/
def normalizeAction (act : String) : String :=
  String.mk ((stripString act).data.map Char.toLower)

/-- The chip movement shared by the call/bet/raise branches: pay `pay`
from the actor's stack into the street and total commitments, marking the
actor all-in when the stack hits zero. -/
def commitChips (pay : ℤ) (p : Player) : Player :=
  let p1 := { p with stack := p.stack - pay,
                     streetCommit := p.streetCommit + pay,
                     committedTotal := p.committedTotal + pay }
  if p1.stack = 0 then { p1 with allIn := true } else p1

/-- The `fold` case of `apply_action`. -/
def applyFold (st : HandState) (actorIdx : ℕ) (playerName : String) : HandState :=
  { st with
    players := listModify (fun p => { p with folded := true }) actorIdx st.players,
    pendingToAct := removeName st.pendingToAct playerName }

/-- The `check` case of `apply_action`. -/
def applyCheck (st : HandState) (actor : Player) (playerName : String) :
    Except String HandState :=
  if max 0 (st.currentBet - actor.streetCommit) ≠ 0 then .error "Cannot check facing a bet."
  else .ok { st with pendingToAct := removeName st.pendingToAct playerName }

/-- The `call` case of `apply_action`: pay `min(stack, to_call)`. -/
def applyCall (st : HandState) (actorIdx : ℕ) (actor : Player) (playerName : String) :
    Except String HandState :=
  let toCall := max 0 (st.currentBet - actor.streetCommit)
  if toCall ≤ 0 then .error "Nothing to call."
  else
    .ok { st with
      players := listModify (commitChips (min actor.stack toCall)) actorIdx st.players,
      pendingToAct := removeName st.pendingToAct playerName }

/-- The `bet` case of `apply_action`. -/
def applyBet (st : HandState) (actorIdx : ℕ) (actor : Player) (playerName : String)
    (amount : Option ℤ) : Except String HandState :=
  if max 0 (st.currentBet - actor.streetCommit) ≠ 0 then .error "Use raise while facing a bet."
  else
    match amount with
    | none => .error "Invalid bet amount."
    | some betTo =>
      if betTo ≤ 0 then .error "Bet must be positive."
      else if actor.stack < betTo then .error "Insufficient chips for this bet."
      else if betTo < st.bigBlind ∧ betTo < actor.stack then .error "Bet is below minimum."
      else
        let players1 := listModify (commitChips betTo) actorIdx st.players
        .ok { st with
          players := players1,
          currentBet := actor.streetCommit + betTo,
          minRaise := max st.bigBlind betTo,
          pendingToAct := removeName (eligiblePlayers players1) playerName }

/-- The `raise` case of `apply_action`. -/
def applyRaise (st : HandState) (actorIdx : ℕ) (actor : Player) (playerName : String)
    (amount : Option ℤ) : Except String HandState :=
  if max 0 (st.currentBet - actor.streetCommit) ≤ 0 then .error "Nothing to raise."
  else
    match amount with
    | none => .error "Invalid raise amount."
    | some raiseTo =>
      let maxTo := actor.streetCommit + actor.stack
      if maxTo < raiseTo then .error "Insufficient chips for this raise."
      else if raiseTo < st.currentBet + st.minRaise ∧ raiseTo ≠ maxTo then
        .error "Raise is below minimum."
      else if raiseTo - actor.streetCommit ≤ 0 then .error "Raise must increase commitment."
      else
        let players1 := listModify (commitChips (raiseTo - actor.streetCommit)) actorIdx st.players
        let fullRaise := raiseTo - st.currentBet
        .ok { st with
          players := players1,
          minRaise := if st.minRaise ≤ fullRaise then fullRaise else st.minRaise,
          currentBet := raiseTo,
          pendingToAct := removeName (eligiblePlayers players1) playerName }

/-- The `all_in` case of `apply_action`. -/
def applyAllIn (st : HandState) (actorIdx : ℕ) (actor : Player) (playerName : String) :
    Except String HandState :=
  if actor.stack ≤ 0 then .error "No chips remaining."
  else
    let players1 := listModify (fun p =>
      { p with stack := 0,
               streetCommit := p.streetCommit + actor.stack,
               committedTotal := p.committedTotal + actor.stack,
               allIn := true }) actorIdx st.players
    let newCommit := actor.streetCommit + actor.stack
    if st.currentBet < newCommit then
      if st.minRaise ≤ newCommit - st.currentBet then
        .ok { st with
          players := players1,
          currentBet := newCommit,
          minRaise := newCommit - st.currentBet,
          pendingToAct := removeName (eligiblePlayers players1) playerName }
      else
        .ok { st with
          players := players1,
          currentBet := newCommit,
          pendingToAct := removeName st.pendingToAct playerName }
    else .ok { st with players := players1, pendingToAct := removeName st.pendingToAct playerName }

/-- The `elif` ladder of `apply_action` (one case per action kind), applied
to the already-validated actor.  Every rejection happens before any state
field is assigned, so errors return the message with the state untouched.
Amounts arrive in cents (`to_cents` applied by the caller); `none` stands
for Python's `None`, on which `to_cents` raises and the `bet`/`raise`
branches answer their invalid-amount message. -/
def applyActionBranch (st : HandState) (actorIdx : ℕ) (actor : Player)
    (playerName na : String) (amount : Option ℤ) : Except String HandState :=
  if na = "fold" then .ok (applyFold st actorIdx playerName)
  else if na = "check" then applyCheck st actor playerName
  else if na = "call" then applyCall st actorIdx actor playerName
  else if na = "bet" then applyBet st actorIdx actor playerName amount
  else if na = "raise" then applyRaise st actorIdx actor playerName amount
  else if na = "all_in" then applyAllIn st actorIdx actor playerName
  else .error "Invalid action."

/-- The unconditional bookkeeping after a successful branch: recompute the
pot, append the action-log entry and advance the acting index to the next
player who is neither folded nor all-in. -/
def applyActionFinish (st1 : HandState) (actorIdx : ℕ) (playerName na : String)
    (amount : Option ℤ) : HandState :=
  let st2 := { st1 with
    pot := sumCommitted st1.players,
    actionLog := st1.actionLog ++ [⟨playerName, st1.street, na, amount⟩] }
  if st2.street = .showdown ∨ st2.street = .finished then st2
  else
    match nextActiveIndex st2.players actorIdx with
    | none => st2
    | some nidx => { st2 with actingIndex := some nidx }

/-- `apply_action` up to (not including) the final `_maybe_advance` call:
turn validation, then `applyActionBranch`, then `applyActionFinish`.  The
`acting_index` `None`/out-of-range cases would raise in Python and cannot
be reached through the engine API. -/
def applyActionCore (st : HandState) (playerName act : String) (amount : Option ℤ) :
    Except String HandState :=
  if st.street = .showdown ∨ st.street = .finished then .error "Hand already finished."
  else
    match st.actingIndex with
    | none => .error "No active player turn."
    | some actorIdx =>
      match st.players.get? actorIdx with
      | none => .error "No active player turn."
      | some actor =>
        if actor.name ≠ playerName then .error "Not your turn."
        else if actor.folded || actor.allIn then .error "You cannot act right now."
        else
          match applyActionBranch st actorIdx actor playerName (normalizeAction act) amount with
          | .error m => .error m
          | .ok st1 => .ok (applyActionFinish st1 actorIdx playerName (normalizeAction act) amount)

/-- `apply_action`: the validated transition followed by `_maybe_advance`;
rejections leave the state exactly as given. -/
def applyAction (st : HandState) (playerName act : String) (amount : Option ℤ) :
    Bool × String × HandState :=
  match applyActionCore st playerName act amount with
  | .error msg => (false, msg, st)
  | .ok st1 => (true, "Action accepted.", maybeAdvance st1)

/-! ## Blackjack LAN round settlement and turn-timeout ejection
(`src/storage.py`)

Blackjack cards are (rank, suit) string pairs, exactly the tuples in
`BLACKJACK_RANKS × BLACKJACK_SUITS`.  Dollar amounts stay rational
(`Decimal` is exact).  `time.time()` reads are passed in as `now`.  The
table deck is kept in draw order (Python pops from the end of its list);
`_blackjack_draw_card_from_table` reshuffles a fresh deck when the list is
empty, so theorems about the dealer loop carry a deck-sufficiency
hypothesis instead of modelling that reshuffle. -/

structure BJCard where
  rank : String
  suit : String
deriving DecidableEq, Repr

/-- The ace-devaluation loop of `_blackjack_hand_total`
(`while total > 21 and aces > 0`). -/
def bjAdjust : ℕ → ℕ → ℕ
  | total, 0 => total
  | total, aces + 1 => if 21 < total then bjAdjust (total - 10) aces else total

/-- Python's `int(rank)` on the clean digit strings of `BLACKJACK_RANKS`
(a non-numeric rank raises and contributes `0`, per the `except` arm). -/
def strDigits? (s : String) : Option ℕ :=
  if s.data ≠ [] ∧ s.data.all Char.isDigit then
    some (s.data.foldl (fun acc c => acc * 10 + (c.toNat - 48)) 0)
  else none

def bjCardValue (c : BJCard) : ℕ :=
  if c.rank = "A" then 11
  else if c.rank = "J" ∨ c.rank = "Q" ∨ c.rank = "K" then 10
  else (strDigits? c.rank).getD 0

def bjAceCount (cards : List BJCard) : ℕ :=
  (cards.filter (fun c => c.rank == "A")).length

/-- `_blackjack_hand_total`. -/
def blackjackHandTotal (cards : List BJCard) : ℕ :=
  bjAdjust ((cards.map bjCardValue).sum) (bjAceCount cards)

/-- `_blackjack_is_natural`. -/
def blackjackIsNatural (cards : List BJCard) : Bool :=
  cards.length == 2 && blackjackHandTotal cards == 21

/-- `_blackjack_new_deck` before the shuffle: the 52 rank-suit pairs in
the source's build order (`for suit in BLACKJACK_SUITS for rank in
BLACKJACK_RANKS`).  A reshuffle installs a random permutation of this
list; the permutation itself is the explicit `fresh` parameter below. -/
def bjFreshDeck : List BJCard :=
  (["S", "H", "D", "C"].map (fun s =>
    ["2", "3", "4", "5", "6", "7", "8", "9", "10", "J", "Q", "K", "A"].map
      (fun r => BJCard.mk r s))).flatten

/-- A card's hand value with every ace counted low (1 instead of 11): the
least total a card can contribute after the ace-devaluation loop. -/
def bjMinValue (c : BJCard) : ℕ :=
  if c.rank = "A" then 1 else bjCardValue c

/-- The least possible total of a hand: every ace counted as 1. -/
def bjMinTotal (cards : List BJCard) : ℕ :=
  (cards.map bjMinValue).sum

/-- The dealer loop of `_blackjack_lan_finish_round_unlocked` (draw while
the total is below `BLACKJACK_DEALER_STAND_TOTAL = 17`), with
`_blackjack_draw_card_from_table`'s reshuffle branch: when the deck list
is empty the source installs `_blackjack_new_deck()` — a shuffled 52-card
deck — and keeps drawing.  Decks are stored in draw order (the source pops
from the end of `table["deck"]`, so `deckDraw` is that list reversed), the
`k`-th reshuffle uses the deck `fresh k`, and the `fresh k = []` arm is
unreachable in the program (a fresh deck has 52 cards).  The fuel only
bounds the loop: every draw from a nonempty hand of real cards raises the
all-aces-low total by at least 1, so `deck.length + 18` draws can never be
reached (`dealerPlay_reaches_17` proves the loop always exits with total
at least 17). -/
def dealerPlayGo (fresh : ℕ → List BJCard) :
    ℕ → List BJCard → List BJCard → ℕ → List BJCard × List BJCard
  | 0, cards, deck, _ => (cards, deck)
  | fuel + 1, cards, deck, k =>
    if blackjackHandTotal cards < 17 then
      match deck with
      | c :: rest => dealerPlayGo fresh fuel (cards ++ [c]) rest k
      | [] =>
        match fresh k with
        | c :: rest => dealerPlayGo fresh fuel (cards ++ [c]) rest (k + 1)
        | [] => (cards, [])
    else (cards, deck)

/-- The dealer's draw-to-17 loop: final dealer hand and remaining deck. -/
def dealerPlay (cards deck : List BJCard) (fresh : ℕ → List BJCard) :
    List BJCard × List BJCard :=
  dealerPlayGo fresh (deck.length + 18) cards deck 0

structure StatsBucket where
  roundsPlayed : ℕ
  roundsWon : ℕ
  totalGameBuyIn : ℚ
  totalGamePayout : ℚ
  totalGameNet : ℚ
  currentWinPercentage : ℚ
deriving DecidableEq, Repr

def zeroStats : StatsBucket := ⟨0, 0, 0, 0, 0, 0⟩

/-- `_normalize_stats_bucket` on an already well-typed bucket (the
dict-decoding fallbacks collapse to the identity there, the clamps
remain). -/
def normalizeStatsBucket (s : StatsBucket) : StatsBucket :=
  let rp := s.roundsPlayed
  let rw := min s.roundsWon rp
  let computed : ℚ := if 0 < rp then ((rw : ℚ) / (rp : ℚ)) * 100 else 0
  let saved := min 100 (max 0 s.currentWinPercentage)
  { roundsPlayed := rp,
    roundsWon := rw,
    totalGameBuyIn := house_round_balance s.totalGameBuyIn,
    totalGamePayout := house_round_balance s.totalGamePayout,
    totalGameNet := house_round_balance s.totalGameNet,
    currentWinPercentage := if 0 < rp then computed else saved }

/-- `_apply_result_to_stats_bucket`. -/
def applyResultToStatsBucket (stats : StatsBucket) (buyIn payout : ℚ) (won : Bool) :
    StatsBucket :=
  let buyInValue := house_round_delta buyIn
  let payoutValue := house_round_delta payout
  let netValue := house_round_balance (payoutValue - buyInValue)
  let rp := stats.roundsPlayed + 1
  let rw := if won then stats.roundsWon + 1 else stats.roundsWon
  { roundsPlayed := rp,
    roundsWon := rw,
    totalGameBuyIn := house_round_balance (stats.totalGameBuyIn + buyInValue),
    totalGamePayout := house_round_balance (stats.totalGamePayout + payoutValue),
    totalGameNet := house_round_balance (stats.totalGameNet + netValue),
    currentWinPercentage := if 0 < rp then ((rw : ℚ) / (rp : ℚ)) * 100 else 0 }

/-- An account as the blackjack code reads it: the balance, the top-level
stats bucket, and the `game_breakdown["blackjack"]` bucket. -/
structure Account where
  balance : ℚ
  stats : StatsBucket
  blackjackStats : StatsBucket
deriving DecidableEq, Repr

def lookupAccount (accounts : List (String × Account)) (name : String) : Option Account :=
  (accounts.find? (fun pr => pr.1 == name)).map Prod.snd

def updateAccount (accounts : List (String × Account)) (name : String)
    (f : Account → Account) : List (String × Account) :=
  match accounts with
  | [] => []
  | (k, a) :: rest =>
    if k = name then (k, f a) :: rest else (k, a) :: updateAccount rest name f

/-- `_blackjack_lan_record_result_unlocked`: a missing account is a no-op;
otherwise the result is applied to the normalized top-level bucket and the
normalized blackjack breakdown bucket. -/
def blackjackRecordResult (accounts : List (String × Account)) (name : String)
    (buyIn payout : ℚ) (won : Bool) : List (String × Account) :=
  updateAccount accounts name (fun a =>
    { a with
      stats := applyResultToStatsBucket (normalizeStatsBucket a.stats) buyIn payout won,
      blackjackStats :=
        applyResultToStatsBucket (normalizeStatsBucket a.blackjackStats) buyIn payout won })

structure BJPlayerState where
  bet : ℚ
  ready : Bool
  cards : List BJCard
  status : String
  result : Option String
  message : String
  payout : ℚ
  isNatural : Bool
  penaltyCharged : ℚ
deriving DecidableEq, Repr

/-- `_default_blackjack_lan_player_state`. -/
def defaultBJPlayerState : BJPlayerState :=
  { bet := 0, ready := false, cards := [], status := "waiting", result := none,
    message := "", payout := 0, isNatural := false, penaltyCharged := 0 }

/-- A blackjack LAN table restricted to the fields the settlement and
timeout code reads or writes (seat limits, bet bounds, privacy flags and
the round counter never appear in those paths). -/
structure BJTable where
  id : ℕ
  name : String
  players : List String
  pendingPlayers : List String
  host : Option String
  phase : String
  inProgress : Bool
  dealerCards : List BJCard
  deckDraw : List BJCard
  turnOrder : List String
  turnIndex : ℕ
  turnStartedEpoch : ℚ
  playerStates : List (String × BJPlayerState)
  history : List String
  lastUpdatedEpoch : ℚ
deriving DecidableEq, Repr

/-- `_default_blackjack_lan_table` restricted to the same fields. -/
def defaultBJTable (tid : ℕ) : BJTable :=
  { id := tid, name := "Table " ++ toString tid, players := [], pendingPlayers := [],
    host := none, phase := "waiting_for_players", inProgress := false,
    dealerCards := [], deckDraw := [], turnOrder := [], turnIndex := 0,
    turnStartedEpoch := 0, playerStates := [], history := [], lastUpdatedEpoch := 0 }

/-- `_normalize_blackjack_lan_table_name`. -/
def normalizeBJTableName (raw : String) (fallbackId : ℕ) : String :=
  if stripString raw = "" then "Table " ++ toString fallbackId else stripString raw

structure BJSettings where
  turnTimeoutSeconds : ℤ
  timeoutPenaltyPercent : ℚ
deriving DecidableEq, Repr

/-- `_blackjack_lan_current_turn_player` (the typed `turnIndex : ℕ` makes
the negative-index guard vacuous). -/
def currentTurnPlayer (table : BJTable) : Option String :=
  table.turnOrder.get? table.turnIndex

/-- `_blackjack_lan_append_history` (keeps the last 80 entries). -/
def appendBJHistory (table : BJTable) (message : String) : BJTable :=
  if stripString message = "" then table
  else
    let history := table.history ++ [stripString message]
    { table with
      history := if 80 < history.length then history.drop (history.length - 80) else history }

def lookupBJState (table : BJTable) (nm : String) : Option BJPlayerState :=
  (table.playerStates.find? (fun pr => pr.1 == nm)).map Prod.snd

def updateBJState (states : List (String × BJPlayerState)) (nm : String)
    (f : BJPlayerState → BJPlayerState) : List (String × BJPlayerState) :=
  match states with
  | [] => []
  | (k, v) :: rest =>
    if k = nm then (k, f v) :: rest else (k, v) :: updateBJState rest nm f

def removeBJState (states : List (String × BJPlayerState)) (nm : String) :
    List (String × BJPlayerState) :=
  states.filter (fun pr => pr.1 ≠ nm)

/-- The per-player result ladder inside
`_blackjack_lan_finish_round_unlocked` (lines 938–976): returns
(result, payout, won, message). -/
def settleOutcome (dealerTotal : ℕ) (dealerNatural : Bool) (playerTotal : ℕ)
    (playerNatural : Bool) (status : String) (bet : ℚ) :
    String × ℚ × Bool × String :=
  if status = "busted" ∨ 21 < playerTotal then
    ("loss", 0, false, "Busted with " ++ toString playerTotal ++ ". You lose.")
  else if 21 < dealerTotal then
    if playerNatural && !dealerNatural then
      ("blackjack", house_round_credit (bet * (5/2)), true,
        "Dealer busted with " ++ toString dealerTotal ++ ". Blackjack payout 3:2.")
    else
      ("win", house_round_credit (bet * 2), true,
        "Dealer busted with " ++ toString dealerTotal ++ ". You win.")
  else if playerNatural && !dealerNatural then
    ("blackjack", house_round_credit (bet * (5/2)), true, "Blackjack! You win 3:2.")
  else if dealerNatural && !playerNatural then
    ("loss", 0, false, "Dealer blackjack. You lose.")
  else if dealerTotal < playerTotal then
    ("win", house_round_credit (bet * 2), true,
      "Your " ++ toString playerTotal ++ " beats dealer " ++ toString dealerTotal ++ ".")
  else if playerTotal = dealerTotal then
    ("push", house_round_credit bet, false,
      "Push at " ++ toString playerTotal ++ ". Bet returned.")
  else
    ("loss", 0, false,
      "Dealer " ++ toString dealerTotal ++ " beats your " ++ toString playerTotal ++ ".")

/-- The per-player settlement step inside the loop of
`_blackjack_lan_finish_round_unlocked`. -/
def settlePlayerStep (dealerTotal : ℕ) (dealerNatural : Bool)
    (acc : List (String × Account) × List (String × BJPlayerState)) (nm : String) :
    List (String × Account) × List (String × BJPlayerState) :=
  match (acc.2.find? (fun pr => pr.1 == nm)).map Prod.snd with
  | none => acc
  | some ps =>
    let bet := house_round_credit ps.bet
    if bet ≤ 0 then acc
    else
      let outcome := settleOutcome dealerTotal dealerNatural
        (blackjackHandTotal ps.cards) ps.isNatural ps.status bet
      let payout := outcome.2.1
      let accounts1 :=
        match lookupAccount acc.1 nm with
        | none => acc.1
        | some _ =>
          let acc2 :=
            if 0 < payout then
              updateAccount acc.1 nm (fun a =>
                { a with balance := house_round_balance (a.balance + payout) })
            else acc.1
          blackjackRecordResult acc2 nm bet payout outcome.2.2.1
      (accounts1,
       updateBJState acc.2 nm (fun p =>
         { p with payout := payout, result := some outcome.1,
                  message := outcome.2.2.2, status := "finished" }))

/-- `_blackjack_lan_finish_round_unlocked`: the dealer draws to 17, every
seated player with a positive rounded bet is settled, payouts are credited
to existing accounts, results recorded, and the table moves to the
`finished` phase. -/
def blackjackFinishRound (accounts : List (String × Account)) (table : BJTable)
    (fresh : ℕ → List BJCard) (now : ℚ) : List (String × Account) × BJTable :=
  let dp := dealerPlay table.dealerCards table.deckDraw fresh
  let dealerTotal := blackjackHandTotal dp.1
  let dealerNatural := blackjackIsNatural dp.1
  let step := table.players.foldl (settlePlayerStep dealerTotal dealerNatural)
    (accounts, table.playerStates)
  let t1 : BJTable := { table with
    dealerCards := dp.1, deckDraw := dp.2, playerStates := step.2,
    phase := "finished", inProgress := false, turnOrder := [], turnIndex := 0,
    turnStartedEpoch := 0, lastUpdatedEpoch := now }
  (step.1,
   appendBJHistory t1 ("Dealer final total: " ++ toString dealerTotal ++ ". Round finished."))

/-- `_blackjack_lan_eject_player_for_timeout_unlocked`.  The Python code
writes the penalty and timed-out status into the player-state dict and then
immediately pops that dict from the table, so those writes are not
observable; the dollar formatting inside the history message is elided. -/
def blackjackEjectForTimeout (accounts : List (String × Account)) (table : BJTable)
    (playerName : String) (settings : BJSettings) : List (String × Account) × BJTable :=
  if playerName ∉ table.players then (accounts, table)
  else
    let ps := (lookupBJState table playerName).getD defaultBJPlayerState
    let bet := house_round_credit ps.bet
    let penalty := house_round_credit ((bet * settings.timeoutPenaltyPercent) / 100)
    let accounts1 :=
      match lookupAccount accounts playerName with
      | some _ =>
        if 0 < penalty then
          updateAccount accounts playerName (fun a =>
            { a with balance := house_round_balance (a.balance - penalty) })
        else accounts
      | none => accounts
    let accounts2 := blackjackRecordResult accounts1 playerName (bet + penalty) 0 false
    let players1 := table.players.filter (fun p => p ≠ playerName)
    let table1 : BJTable := { table with
      players := players1,
      playerStates := removeBJState table.playerStates playerName,
      turnOrder := table.turnOrder.filter (fun p => p ≠ playerName),
      host := if table.host = some playerName then players1.head? else table.host }
    if table1.players = [] then
      (accounts2,
       { defaultBJTable table.id with name := normalizeBJTableName table.name table.id })
    else
      (accounts2,
       appendBJHistory table1 (playerName ++ " timed out, was ejected, and penalized."))

/-- `_blackjack_lan_enforce_timeout_for_table_unlocked` (all `time.time()`
reads within the one sweep are the same `now`). -/
def blackjackEnforceTimeoutForTable (accounts : List (String × Account))
    (table : BJTable) (settings : BJSettings) (fresh : ℕ → List BJCard) (now : ℚ) :
    List (String × Account) × BJTable :=
  if table.phase ≠ "player_turns" ∨ table.inProgress = false then (accounts, table)
  else
    let timeoutSeconds := max 5 settings.turnTimeoutSeconds
    if table.turnStartedEpoch ≤ 0 then (accounts, { table with turnStartedEpoch := now })
    else if now - table.turnStartedEpoch < (timeoutSeconds : ℚ) then (accounts, table)
    else
      match currentTurnPlayer table with
      | none => (accounts, table)
      | some timedOut =>
        let r := blackjackEjectForTimeout accounts table timedOut settings
        if r.2.phase ≠ "player_turns" then r
        else
          match currentTurnPlayer r.2 with
          | none => blackjackFinishRound r.1 (appendBJHistory r.2 "Dealer turn.") fresh now
          | some _ =>
            (r.1, { r.2 with turnStartedEpoch := now, lastUpdatedEpoch := now })

/-! ## Bot policy (`src/poker_bots.py`)

`choose_bot_action` reads the hand state dict directly (stacks and pot in
cents, the legal-action info in dollars, exactly as the Python code mixes
them) and makes one `random.random()` draw, passed in as `rand`. -/

def insertAscN (a : ℕ) : List ℕ → List ℕ
  | [] => [a]
  | b :: bs => if a ≤ b then a :: b :: bs else b :: insertAscN a bs

def sortAscN (l : List ℕ) : List ℕ := l.foldr insertAscN []

/-- `_bot_profile`: (looseness, aggression) from the character-sum seed. -/
def botProfile (playerName : String) : ℚ × ℚ :=
  let seed := (playerName.toList.map Char.toNat).sum
  ((((seed % 21 : ℕ) : ℚ) - 10) / 100, (((seed / 7 % 21 : ℕ) : ℚ) - 10) / 100)

/-- `_hand_category_value`. -/
def handCategoryValue (hole board : List Card) : ℕ :=
  let cards := hole ++ board
  if cards.length < 5 then 0
  else
    match evaluateBestSeven cards with
    | some (c :: _) => c
    | _ => 0

/-- `_has_flush_draw`. -/
def hasFlushDraw (hole board : List Card) : Bool :=
  let cards := hole ++ board
  if cards.length < 4 then false
  else
    ((cards.map Card.suit).dedup).any
      (fun s => 4 ≤ (cards.filter (fun c => c.suit = s)).length)

/-- The 4-window scan of `_has_straight_draw`. -/
def straightDrawScan : List ℕ → Bool
  | a :: b :: c :: d :: rest =>
    if d - a ≤ 4 then true else straightDrawScan (b :: c :: d :: rest)
  | _ => false

/-- `_has_straight_draw`. -/
def hasStraightDraw (hole board : List Card) : Bool :=
  let cards := hole ++ board
  if cards.length < 4 then false
  else
    let values0 := (cards.map Card.rank).dedup
    let values := if 14 ∈ values0 then values0 ++ [1] else values0
    straightDrawScan (sortAscN values)

/-- `_strength_0_100`: (strength, draw bonus). -/
def strength0100 (st : HandState) (player : Player) : ℚ × ℚ :=
  match player.hole with
  | [c0, c1] =>
    if st.board = [] then
      let rhi : ℕ := max c0.rank c1.rank
      let rlo : ℕ := min c0.rank c1.rank
      let suited := c0.suit == c1.suit
      let gap : ℕ := rhi - rlo
      let pair := c0.rank == c1.rank
      let score0 : ℚ := (((rhi + rlo : ℕ) : ℚ)) * 2
      let score1 := if pair then score0 + 30 + ((rhi : ℚ) * (3/2)) else score0
      let score2 := if suited then score1 + 4 else score1
      let score3 :=
        if gap = 1 then score2 + 4
        else if gap = 2 then score2 + 2
        else if 4 ≤ gap then score2 - 3
        else score2
      let score4 := if 11 ≤ rhi ∧ 10 ≤ rlo then score3 + 6 else score3
      (max 0 (min 100 score4), 0)
    else
      let category := handCategoryValue [c0, c1] st.board
      let base : ℚ :=
        match category with
        | 0 => 22 | 1 => 40 | 2 => 57 | 3 => 70 | 4 => 80
        | 5 => 86 | 6 => 92 | 7 => 97 | 8 => 99 | _ => 20
      let kicker := (evaluateBestSeven ([c0, c1] ++ st.board)).getD []
      let kickerBonus : ℚ :=
        min 8 (((((kicker.drop 1).sum : ℕ) : ℚ) / ((max 1 (kicker.length - 1) : ℕ) : ℚ)) / 3)
      let drawBonus : ℚ :=
        if category ≤ 1 then
          (if hasFlushDraw [c0, c1] st.board then 7 else 0) +
          (if hasStraightDraw [c0, c1] st.board then 5 else 0)
        else 0
      (max 0 (min 100 (base + kickerBonus + drawBonus)), drawBonus)
  | _ => (0, 0)

/-- Python's bankers rounding `round(x, 2)` on the exact value. -/
def roundHalfEvenInt (q : ℚ) : ℤ :=
  let f := ⌊q⌋
  let r := q - (f : ℚ)
  if r < 1/2 then f
  else if 1/2 < r then f + 1
  else if f % 2 = 0 then f else f + 1

def roundHalfEven2 (x : ℚ) : ℚ := ((roundHalfEvenInt (100 * x) : ℤ) : ℚ) / 100

/-- `choose_bot_action`. -/
def chooseBotAction (st : HandState) (playerName : String) (info : LegalInfo)
    (rand : ℚ) : String × Option ℚ :=
  let actions := info.actions
  if actions = [] then ("check", none)
  else
    match st.players.find? (fun p => p.name == playerName) with
    | none => ("fold", none)
    | some player =>
      let sd := strength0100 st player
      let strength := sd.1
      let drawBonus := sd.2
      let prof := botProfile playerName
      let looseness := prof.1
      let aggression := prof.2
      let toCall : ℚ := info.toCall.getD 0
      let pot : ℚ := (st.pot : ℚ)
      let stack : ℚ := (player.stack : ℚ)
      let preflop := st.board.length = 0
      let commitmentRatio := toCall / max (1/100) stack
      let potOdds := toCall / max (1/100) (pot + toCall)
      let recentAggression : ℕ :=
        ((st.actionLog.drop (st.actionLog.length - 4)).filter (fun e =>
          e.action.toLower = "bet" ∨ e.action.toLower = "raise" ∨
            e.action.toLower = "all_in")).length
      if "check" ∈ actions ∧ toCall ≤ 0 then
        if "all_in" ∈ actions ∧ 0 < stack ∧ (95 - aggression * 20) ≤ strength then
          ("all_in", none)
        else if "bet" ∈ actions then
          let bluffFactor := max 0 (min 1 (12/100 + aggression + (if preflop then 6/100 else 0)))
          let valueThreshold := 56 - aggression * 10 - drawBonus * (1/2)
          if valueThreshold ≤ strength ∨ (5 ≤ drawBonus ∧ rand < bluffFactor) then
            let maxBet := min
              (match info.maxBet with
               | some v => if v ≠ 0 then v else stack
               | none => stack) stack
            let minBet :=
              match info.minBet with
              | some v => if v ≠ 0 then v else 0
              | none => 0
            let potMult : ℚ :=
              if 86 ≤ strength then 95/100
              else if 72 ≤ strength then 72/100
              else if 5 ≤ drawBonus then 48/100
              else 55/100
            let size := max minBet (min maxBet (max (pot * potMult) (stack * (14/100))))
            ("bet", some (roundHalfEven2 size))
          else ("check", none)
        else ("check", none)
      else
        if "all_in" ∈ actions ∧ 0 < stack ∧
            (((45/100) ≤ commitmentRatio ∧ (63 - looseness * 20) ≤ strength) ∨
              (97 - aggression * 25) ≤ strength) then
          ("all_in", none)
        else
          let minTo : ℚ := info.minRaiseTo.getD 0
          let maxTo : ℚ := info.maxRaiseTo.getD 0
          let raiseThreshold0 :=
            69 + commitmentRatio * 10 + (recentAggression : ℚ) * 2
              - aggression * 14 - looseness * 8
          let raiseThreshold := if preflop then raiseThreshold0 + 5/2 else raiseThreshold0
          if "raise" ∈ actions ∧ raiseThreshold ≤ strength ∧ minTo ≤ maxTo then
            let raisePotMult : ℚ :=
              if 88 ≤ strength then 108/100
              else if 78 ≤ strength then 86/100
              else 68/100
            let target := max minTo (min maxTo (max (toCall * (9/4)) (pot * raisePotMult)))
            ("raise", some (roundHalfEven2 target))
          else
            let callThreshold :=
              (if preflop then (50 : ℚ) else 44) + commitmentRatio * 24 + potOdds * 18
                + (recentAggression : ℚ) * (3/2) - drawBonus * (3/4)
                - looseness * 16 - aggression * 8
            if "call" ∈ actions ∧ callThreshold ≤ strength then ("call", none)
            else if "check" ∈ actions then ("check", none)
            else if "fold" ∈ actions then ("fold", none)
            else (actions.headD "", none)

/-! ## Concrete instances used by the verification theorems -/

instance {e a : Type} [DecidableEq e] [DecidableEq a] : DecidableEq (Except e a)
  | .error m, .error n =>
    if h : m = n then .isTrue (by rw [h]) else .isFalse (fun hc => h (Except.error.inj hc))
  | .error _, .ok _ => .isFalse (fun hc => Except.noConfusion hc)
  | .ok _, .error _ => .isFalse (fun hc => Except.noConfusion hc)
  | .ok x, .ok y =>
    if h : x = y then .isTrue (by rw [h]) else .isFalse (fun hc => h (Except.ok.inj hc))

def sfHand : List Card := [⟨14,0⟩,⟨13,0⟩,⟨12,0⟩,⟨11,0⟩,⟨10,0⟩,⟨2,1⟩,⟨2,2⟩]

def quadHand : List Card := [⟨9,0⟩,⟨9,1⟩,⟨9,2⟩,⟨9,3⟩,⟨5,0⟩,⟨2,1⟩,⟨3,2⟩]

def emptyHand : HandState :=
  { players := [], smallBlind := 0, bigBlind := 0, dealerIndex := 0, deck := [],
    board := [], street := .finished, currentBet := 0, minRaise := 0,
    tableMinRaise := 0, actingIndex := none, pendingToAct := [], pot := 0,
    result := none, winner := none, actionLog := [] }

def orderedDeck : List Card :=
  (List.range 4).flatMap (fun s => (List.range 13).map (fun r => ⟨r + 2, s⟩))

def c1Hand0 : HandState :=
  (createHand [("A", 1000), ("B", 50), ("C", 50)] 10 20 none 0 orderedDeck).getD emptyHand

def c1Step1 : Bool × String × HandState := applyAction c1Hand0 "A" "raise" (some 100)

def c1Step2 : Bool × String × HandState := applyAction c1Step1.2.2 "B" "call" none

def c1Step3 : Bool × String × HandState := applyAction c1Step2.2.2 "C" "call" none

def c1Step4 : Bool × String × HandState := applyAction c1Step3.2.2 "A" "fold" none

def c6PlayerB : Player := ⟨"B", 30, [⟨2, 1⟩, ⟨3, 2⟩], false, false, 20, 20⟩

def c6State : HandState :=
  { players := [⟨"A", 500, [⟨14, 0⟩, ⟨13, 0⟩], false, false, 100, 100⟩, c6PlayerB],
    smallBlind := 10, bigBlind := 20, dealerIndex := 0, deck := [], board := [],
    street := .preflop, currentBet := 100, minRaise := 80, tableMinRaise := 20,
    actingIndex := some 1, pendingToAct := ["B"], pot := 120, result := none,
    winner := none, actionLog := [] }

def c4State : HandState :=
  { players := [⟨"A", 500, [], false, false, 0, 0⟩, ⟨"B", 500, [], false, false, 20, 20⟩],
    smallBlind := 10, bigBlind := 20, dealerIndex := 1, deck := [], board := [],
    street := .preflop, currentBet := 20, minRaise := 20, tableMinRaise := 20,
    actingIndex := some 0, pendingToAct := ["A", "B"], pot := 20, result := none,
    winner := none, actionLog := [] }

def c4After : HandState :=
  match applyActionCore c4State "A" "raise" (some 100) with
  | .ok s => s
  | .error _ => emptyHand

def c4Actor1 : Player := ⟨"A", 400, [], false, false, 100, 100⟩

def c9Bot : Player := ⟨"Bot", 5, [⟨14, 0⟩, ⟨14, 1⟩], false, false, 0, 20⟩

def c9State : HandState :=
  { players := [c9Bot, ⟨"Other", 500, [⟨5, 2⟩, ⟨6, 3⟩], false, false, 0, 20⟩],
    smallBlind := 10, bigBlind := 20, dealerIndex := 0, deck := [],
    board := [⟨14, 2⟩, ⟨7, 3⟩, ⟨2, 0⟩],
    street := .flop, currentBet := 0, minRaise := 20, tableMinRaise := 20,
    actingIndex := some 0, pendingToAct := ["Bot", "Other"], pot := 40,
    result := none, winner := none, actionLog := [] }

/-- A concrete reshuffle supply: every reshuffle yields the unshuffled
fresh deck (any supply works for scenarios in which no draw occurs). -/
def bjConstFresh : ℕ → List BJCard := fun _ => bjFreshDeck

def c7PState : BJPlayerState :=
  { defaultBJPlayerState with
    bet := 500,
    cards := [⟨"A", "S"⟩, ⟨"K", "H"⟩],
    status := "stood",
    isNatural := true }

def c7Table : BJTable :=
  { defaultBJTable 1 with
    players := ["P"],
    phase := "player_turns",
    inProgress := true,
    dealerCards := [⟨"K", "S"⟩, ⟨"9", "H"⟩],
    turnStartedEpoch := 5,
    playerStates := [("P", c7PState)] }

def c7Accounts : List (String × Account) := [("P", ⟨0, zeroStats, zeroStats⟩)]

def c8Acct : Account := { balance := 1000, stats := zeroStats, blackjackStats := zeroStats }

def c8Table : BJTable :=
  { id := 1, name := "Table 1", players := ["P", "Q"], pendingPlayers := [],
    host := some "P", phase := "player_turns", inProgress := true,
    dealerCards := [⟨"K", "S"⟩, ⟨"5", "H"⟩], deckDraw := [⟨"9", "D"⟩],
    turnOrder := ["P", "Q"], turnIndex := 0, turnStartedEpoch := 1,
    playerStates :=
      [("P", { defaultBJPlayerState with bet := 500, status := "playing" }),
       ("Q", { defaultBJPlayerState with bet := 200, status := "playing" })],
    history := [], lastUpdatedEpoch := 1 }

def c8Accounts : List (String × Account) :=
  [("P", c8Acct), ("Q", { balance := 400, stats := zeroStats, blackjackStats := zeroStats })]

def c8Settings : BJSettings := { turnTimeoutSeconds := 30, timeoutPenaltyPercent := 25 }

def c8SoloTable : BJTable :=
  { c8Table with
    players := ["P"], turnOrder := ["P"],
    playerStates := [("P", { defaultBJPlayerState with bet := 500, status := "playing" })] }

def c8SoloAccounts : List (String × Account) := [("P", c8Acct)]

/-! ## Theorems -/

theorem applyCheck_error {st : HandState} {actor : Player} {nm msg : String}
    (h : applyCheck st actor nm = .error msg) : msg ≠ "" := by
  simp only [applyCheck] at h; split at h <;> cases h; decide

theorem applyCall_error {st : HandState} {i : ℕ} {actor : Player} {nm msg : String}
    (h : applyCall st i actor nm = .error msg) : msg ≠ "" := by
  simp only [applyCall] at h; split at h <;> cases h; decide

theorem applyBet_error {st : HandState} {i : ℕ} {actor : Player} {nm : String}
    {amt : Option ℤ} {msg : String} (h : applyBet st i actor nm amt = .error msg) : msg ≠ "" := by
  simp only [applyBet] at h
  repeat' split at h
  all_goals cases h
  all_goals decide

theorem applyRaise_error {st : HandState} {i : ℕ} {actor : Player} {nm : String}
    {amt : Option ℤ} {msg : String} (h : applyRaise st i actor nm amt = .error msg) : msg ≠ "" := by
  simp only [applyRaise] at h
  repeat' split at h
  all_goals cases h
  all_goals decide

theorem applyAllIn_error {st : HandState} {i : ℕ} {actor : Player} {nm msg : String}
    (h : applyAllIn st i actor nm = .error msg) : msg ≠ "" := by
  simp only [applyAllIn] at h
  repeat' split at h
  all_goals cases h
  all_goals decide

theorem applyActionBranch_error {st : HandState} {i : ℕ} {actor : Player} {nm na : String}
    {amt : Option ℤ} {msg : String}
    (h : applyActionBranch st i actor nm na amt = .error msg) : msg ≠ "" := by
  simp only [applyActionBranch] at h
  repeat' split at h
  · cases h
  · exact applyCheck_error h
  · exact applyCall_error h
  · exact applyBet_error h
  · exact applyRaise_error h
  · exact applyAllIn_error h
  · cases h; decide

theorem applyActionCore_error {st : HandState} {nm act : String} {amt : Option ℤ} {msg : String}
    (h : applyActionCore st nm act amt = .error msg) : msg ≠ "" := by
  simp only [applyActionCore] at h
  repeat' split at h
  all_goals try (cases h; decide)
  all_goals cases h
  all_goals (apply applyActionBranch_error; assumption)

theorem listModify_get_eq {α : Type} (f : α → α) (l : List α) (n : ℕ) :
    (listModify f n l).get? n = (l.get? n).map f := by
  induction l generalizing n with
  | nil => simp [listModify]
  | cons a as ih =>
    cases n with
    | zero => simp [listModify]
    | succ m => simpa [listModify] using ih m

theorem commitChips_stack (pay : ℤ) (p : Player) :
    (commitChips pay p).stack = p.stack - pay := by
  simp only [commitChips]; split <;> simp

theorem commitChips_streetCommit (pay : ℤ) (p : Player) :
    (commitChips pay p).streetCommit = p.streetCommit + pay := by
  simp only [commitChips]; split <;> simp

theorem commitChips_committedTotal (pay : ℤ) (p : Player) :
    (commitChips pay p).committedTotal = p.committedTotal + pay := by
  simp only [commitChips]; split <;> simp

theorem commitChips_allIn (pay : ℤ) (p : Player) (hp : p.allIn = false) :
    ((commitChips pay p).allIn = true ↔ p.stack - pay = 0) := by
  simp only [commitChips]
  split <;> rename_i h <;> simp_all

theorem applyActionFinish_players (stb : HandState) (i : ℕ) (nm na : String) (amt : Option ℤ) :
    (applyActionFinish stb i nm na amt).players = stb.players := by
  simp only [applyActionFinish]
  split
  · rfl
  · split <;> rfl

theorem applyActionFinish_currentBet (stb : HandState) (i : ℕ) (nm na : String) (amt : Option ℤ) :
    (applyActionFinish stb i nm na amt).currentBet = stb.currentBet := by
  simp only [applyActionFinish]
  split
  · rfl
  · split <;> rfl

theorem applyActionFinish_minRaise (stb : HandState) (i : ℕ) (nm na : String) (amt : Option ℤ) :
    (applyActionFinish stb i nm na amt).minRaise = stb.minRaise := by
  simp only [applyActionFinish]
  split
  · rfl
  · split <;> rfl

theorem applyActionCore_ok_elim {st : HandState} {nm act : String} {amt : Option ℤ}
    {st1 : HandState} (h : applyActionCore st nm act amt = .ok st1) :
    ∃ i actor stb, st.actingIndex = some i ∧ st.players.get? i = some actor ∧
      applyActionBranch st i actor nm (normalizeAction act) amt = .ok stb ∧
      st1 = applyActionFinish stb i nm (normalizeAction act) amt := by
  simp only [applyActionCore] at h
  repeat' split at h
  all_goals cases h
  rename_i i hi actorOpt actor hactor _ _ _ stb heq
  exact ⟨i, actor, stb, hi, hactor, heq, rfl⟩

theorem branch_raise (st : HandState) (i : ℕ) (actor : Player) (nm : String) (amt : Option ℤ) :
    applyActionBranch st i actor nm "raise" amt = applyRaise st i actor nm amt := by
  simp [applyActionBranch]

theorem branch_all_in (st : HandState) (i : ℕ) (actor : Player) (nm : String) (amt : Option ℤ) :
    applyActionBranch st i actor nm "all_in" amt = applyAllIn st i actor nm := by
  simp [applyActionBranch]

theorem applyRaise_ok_shape {st : HandState} {i : ℕ} {actor : Player} {nm : String}
    {amt : Option ℤ} {stb : HandState} (h : applyRaise st i actor nm amt = .ok stb) :
    ∃ raiseTo, amt = some raiseTo ∧
      stb.players = listModify (commitChips (raiseTo - actor.streetCommit)) i st.players ∧
      stb.currentBet = raiseTo ∧
      stb.minRaise = (if st.minRaise ≤ raiseTo - st.currentBet then raiseTo - st.currentBet
        else st.minRaise) := by
  simp only [applyRaise] at h
  repeat' split at h
  all_goals cases h
  · rename_i hle
    exact ⟨_, rfl, rfl, rfl, by rw [if_pos hle]⟩
  · rename_i hnle
    exact ⟨_, rfl, rfl, rfl, by rw [if_neg hnle]⟩

theorem applyAllIn_ok_shape {st : HandState} {i : ℕ} {actor : Player} {nm : String}
    {stb : HandState} (h : applyAllIn st i actor nm = .ok stb) :
    stb.players = listModify (fun p =>
      { p with stack := 0,
               streetCommit := p.streetCommit + actor.stack,
               committedTotal := p.committedTotal + actor.stack,
               allIn := true }) i st.players ∧
    (st.currentBet < actor.streetCommit + actor.stack →
      stb.currentBet = actor.streetCommit + actor.stack ∧
      stb.minRaise = (if st.minRaise ≤ actor.streetCommit + actor.stack - st.currentBet
        then actor.streetCommit + actor.stack - st.currentBet else st.minRaise)) := by
  simp only [applyAllIn] at h
  repeat' split at h
  all_goals cases h
  · rename_i hle
    exact ⟨rfl, fun _ => ⟨rfl, by rw [if_pos hle]⟩⟩
  · rename_i hnle
    exact ⟨rfl, fun _ => ⟨rfl, by rw [if_neg hnle]⟩⟩
  · rename_i hnlt
    exact ⟨rfl, fun hc => absurd hc hnlt⟩

/-- C4: after an accepted raise (or an all-in that raises), the tracked
minimum-raise increment becomes the raise increment when it is at least
the previous minimum, and is left unchanged by a smaller all-in raise;
the current bet becomes the actor's street commitment. -/
theorem applyAction_min_raise_rule
    (st : HandState) (nm : String) (amt : Option ℤ) (st1 : HandState) (i : ℕ) (actor1 : Player)
    (hacc : applyActionCore st nm "raise" amt = .ok st1 ∨
            applyActionCore st nm "all_in" amt = .ok st1)
    (hi : st.actingIndex = some i)
    (h1 : st1.players.get? i = some actor1)
    (hpos : 0 < actor1.streetCommit - st.currentBet) :
    (st.minRaise ≤ actor1.streetCommit - st.currentBet →
       st1.minRaise = actor1.streetCommit - st.currentBet ∧
       st1.currentBet = actor1.streetCommit) ∧
    (actor1.streetCommit - st.currentBet < st.minRaise →
       st1.minRaise = st.minRaise ∧ st1.currentBet = actor1.streetCommit) := by
  rcases hacc with hacc | hacc
  · obtain ⟨i0, actor, stb, hi0, hget, hbr, hfin⟩ := applyActionCore_ok_elim hacc
    rw [hi] at hi0
    injection hi0 with hii
    subst hii
    rw [show normalizeAction "raise" = "raise" by decide, branch_raise] at hbr
    obtain ⟨raiseTo, hamt, hpl, hcb, hmr⟩ := applyRaise_ok_shape hbr
    subst hfin
    rw [applyActionFinish_players, hpl, listModify_get_eq, hget, Option.map_some'] at h1
    have h1e : commitChips (raiseTo - actor.streetCommit) actor = actor1 := by
      injection h1
    have hsc : actor1.streetCommit = raiseTo := by
      rw [← h1e, commitChips_streetCommit]; ring
    rw [applyActionFinish_minRaise, applyActionFinish_currentBet, hmr, hcb, hsc]
    constructor
    · intro hle
      exact ⟨if_pos hle, rfl⟩
    · intro hlt
      exact ⟨if_neg (not_le_of_gt hlt), rfl⟩
  · obtain ⟨i0, actor, stb, hi0, hget, hbr, hfin⟩ := applyActionCore_ok_elim hacc
    rw [hi] at hi0
    injection hi0 with hii
    subst hii
    rw [show normalizeAction "all_in" = "all_in" by decide, branch_all_in] at hbr
    obtain ⟨hpl, hbig⟩ := applyAllIn_ok_shape hbr
    subst hfin
    rw [applyActionFinish_players, hpl, listModify_get_eq, hget, Option.map_some'] at h1
    have hsc : actor1.streetCommit = actor.streetCommit + actor.stack := by
      cases h1; rfl
    have hlt : st.currentBet < actor.streetCommit + actor.stack := by
      rw [hsc] at hpos; linarith
    obtain ⟨hcb, hmr⟩ := hbig hlt
    rw [applyActionFinish_minRaise, applyActionFinish_currentBet, hmr, hcb, hsc]
    constructor
    · intro hle
      exact ⟨if_pos hle, rfl⟩
    · intro hl2
      exact ⟨if_neg (not_le_of_gt hl2), rfl⟩

/-- C10: a call by the player in turn is never rejected — it always
succeeds, moving `min(stack, owed)` chips from the stack into the street
and total commitments, and marks the player all-in exactly when the stack
is emptied. -/
theorem applyAction_call_never_rejected
    (st : HandState) (nm : String) (amt : Option ℤ) (i : ℕ) (actor : Player)
    (hs : ¬(st.street = Street.showdown ∨ st.street = Street.finished))
    (hi : st.actingIndex = some i)
    (hget : st.players.get? i = some actor)
    (hname : actor.name = nm)
    (hf : actor.folded = false) (ha : actor.allIn = false)
    (htc : 0 < st.currentBet - actor.streetCommit) :
    ∃ st1 actor1, applyActionCore st nm "call" amt = .ok st1 ∧
      st1.players.get? i = some actor1 ∧
      actor1.stack = actor.stack - min actor.stack (st.currentBet - actor.streetCommit) ∧
      actor1.streetCommit = actor.streetCommit + min actor.stack (st.currentBet - actor.streetCommit) ∧
      actor1.committedTotal = actor.committedTotal + min actor.stack (st.currentBet - actor.streetCommit) ∧
      (actor1.allIn = true ↔ actor1.stack = 0) := by
  have hna : normalizeAction "call" = "call" := by decide
  have hmax : max 0 (st.currentBet - actor.streetCommit) = st.currentBet - actor.streetCommit :=
    max_eq_right (le_of_lt htc)
  have hok : applyCall st i actor nm = .ok { st with
      players := listModify (commitChips (min actor.stack (st.currentBet - actor.streetCommit)))
        i st.players,
      pendingToAct := removeName st.pendingToAct nm } := by
    simp only [applyCall, hmax]
    rw [if_neg (not_le_of_gt htc)]
  have hbr : applyActionBranch st i actor nm "call" amt = applyCall st i actor nm := by
    simp [applyActionBranch]
  have hcore : applyActionCore st nm "call" amt =
      .ok (applyActionFinish ({ st with
        players := listModify (commitChips (min actor.stack (st.currentBet - actor.streetCommit)))
          i st.players,
        pendingToAct := removeName st.pendingToAct nm }) i nm "call" amt) := by
    simp only [applyActionCore, hi, hget, hna, hbr, hok, hname, hf, ha]
    rw [if_neg hs]
    simp
  refine ⟨_, commitChips (min actor.stack (st.currentBet - actor.streetCommit)) actor,
    hcore, ?_, ?_, ?_, ?_, ?_⟩
  · rw [applyActionFinish_players, listModify_get_eq, hget, Option.map_some']
  · rw [commitChips_stack]
  · rw [commitChips_streetCommit]
  · rw [commitChips_committedTotal]
  · rw [commitChips_allIn _ _ ha, commitChips_stack]

/-- C2: rejection is atomic — whenever `apply_action` reports failure it
returns the state exactly as given, with a non-empty error message. -/
theorem applyAction_reject_atomic (st : HandState) (nm act : String) (amt : Option ℤ)
    (h : (applyAction st nm act amt).1 = false) :
    (applyAction st nm act amt).2.2 = st ∧ (applyAction st nm act amt).2.1 ≠ "" := by
  cases hc : applyActionCore st nm act amt with
  | error m =>
    refine ⟨by simp [applyAction, hc], ?_⟩
    have := applyActionCore_error hc
    simpa [applyAction, hc] using this
  | ok st1 =>
    exfalso
    simp [applyAction, hc] at h

/-- C6 (amended): `legal_actions` never offers `check` when the amount
owed to call is positive; offers `bet` only when nothing is owed and the
player has chips beyond the (zero) call amount; never offers `raise`
unless the player is facing a positive amount to call with chips beyond
it; and offers `all_in` exactly when the stack strictly exceeds the
amount to call — not whenever the stack is positive. -/
theorem legalActions_gating
    (st : HandState) (nm : String) (i : ℕ) (actor pl : Player)
    (hs : ¬(st.street = Street.showdown ∨ st.street = Street.finished))
    (hi : st.actingIndex = some i)
    (hget : st.players.get? i = some actor)
    (hname : actor.name = nm)
    (hfind : st.players.find? (fun p => p.name == nm) = some pl)
    (hf : pl.folded = false) (ha : pl.allIn = false) :
    ("check" ∈ (legalActions st nm).actions → max 0 (st.currentBet - pl.streetCommit) = 0) ∧
    ("bet" ∈ (legalActions st nm).actions →
      max 0 (st.currentBet - pl.streetCommit) = 0 ∧
      max 0 (st.currentBet - pl.streetCommit) < pl.stack) ∧
    ("raise" ∈ (legalActions st nm).actions →
      0 < max 0 (st.currentBet - pl.streetCommit) ∧
      max 0 (st.currentBet - pl.streetCommit) < pl.stack) ∧
    ("all_in" ∈ (legalActions st nm).actions ↔
      max 0 (st.currentBet - pl.streetCommit) < pl.stack) := by
  have hred : legalActions st nm =
      (if max 0 (st.currentBet - pl.streetCommit) ≤ 0 then
        if 0 < pl.stack then
          { actions := ["fold", "check", "bet", "all_in"],
            toCall := some (fromCents (max 0 (st.currentBet - pl.streetCommit))),
            minBet := some (fromCents st.bigBlind),
            maxBet := some (fromCents pl.stack) }
        else { actions := ["fold", "check"], toCall := some 0 }
      else
        { actions :=
            if 0 < pl.stack then
              if max 0 (st.currentBet - pl.streetCommit) < pl.stack then
                ["fold", "call", "raise", "all_in"]
              else ["fold", "call"]
            else ["fold"],
          toCall := some (fromCents (max 0 (st.currentBet - pl.streetCommit))),
          minRaiseTo := some (fromCents (st.currentBet + st.minRaise)),
          maxRaiseTo := some (fromCents (pl.streetCommit + pl.stack)) }) := by
    simp only [legalActions, hi, hget, hname, hfind, hf, ha]
    rw [if_neg hs]
    simp
  rw [hred]
  by_cases h0 : max 0 (st.currentBet - pl.streetCommit) ≤ 0
  · have h0e : max 0 (st.currentBet - pl.streetCommit) = 0 :=
      le_antisymm h0 (le_max_left _ _)
    rw [if_pos h0, h0e]
    by_cases hstk : 0 < pl.stack
    · rw [if_pos hstk]
      refine ⟨fun _ => rfl, fun _ => ⟨rfl, hstk⟩, ?_, ?_⟩
      · intro hmem
        simp at hmem
      · simp [hstk]
    · rw [if_neg hstk]
      refine ⟨fun _ => rfl, ?_, ?_, ?_⟩
      · intro hmem; simp at hmem
      · intro hmem; simp at hmem
      · simp
        omega
  · rw [if_neg h0]
    have hpos : 0 < max 0 (st.currentBet - pl.streetCommit) := lt_of_not_le h0
    by_cases hstk : 0 < pl.stack
    · rw [if_pos hstk]
      by_cases hcall : max 0 (st.currentBet - pl.streetCommit) < pl.stack
      · rw [if_pos hcall]
        refine ⟨?_, ?_, fun _ => ⟨hpos, hcall⟩, ?_⟩
        · intro hmem; simp at hmem
        · intro hmem; simp at hmem
        · simp [hcall]
      · rw [if_neg hcall]
        refine ⟨?_, ?_, ?_, ?_⟩
        · intro hmem; simp at hmem
        · intro hmem; simp at hmem
        · intro hmem; simp at hmem
        · simp [hcall]
    · rw [if_neg hstk]
      refine ⟨?_, ?_, ?_, ?_⟩
      · intro hmem; simp at hmem
      · intro hmem; simp at hmem
      · intro hmem; simp at hmem
      · simp
        omega

theorem house_round_cex :
    ¬(house_round_credit (-(1/200)) ≤ -(1/200) ∧
      (-(1/200) : ℚ) ≤ house_round_charge (-(1/200))) := by
  intro h
  have h1 := h.1
  have hc : ⌈(100 * (-(1/200)) : ℚ)⌉ = 0 := by norm_num
  simp only [house_round_credit, quantizeTowardZero] at h1
  rw [if_neg (by norm_num)] at h1
  rw [hc] at h1
  norm_num at h1

/-- C3 (amended): `house_round_credit` and `house_round_charge` quantize
to cents toward zero and away from zero respectively, so the credit is
below and the charge above the true value only for nonnegative amounts;
for nonpositive amounts the inequalities reverse. -/
theorem house_round_bounds (x : ℚ) :
    (0 ≤ x → house_round_credit x ≤ x ∧ x ≤ house_round_charge x) ∧
    (x ≤ 0 → house_round_charge x ≤ x ∧ x ≤ house_round_credit x) := by
  constructor
  · intro hx
    constructor
    · simp only [house_round_credit, quantizeTowardZero, if_pos hx]
      rw [div_le_iff₀ (by norm_num : (0:ℚ) < 100)]
      calc ((⌊100 * x⌋ : ℤ) : ℚ) ≤ 100 * x := Int.floor_le _
        _ = x * 100 := by ring
    · simp only [house_round_charge, quantizeAwayFromZero, if_pos hx]
      rw [le_div_iff₀ (by norm_num : (0:ℚ) < 100)]
      calc x * 100 = 100 * x := by ring
        _ ≤ ((⌈100 * x⌉ : ℤ) : ℚ) := Int.le_ceil _
  · intro hx
    by_cases h0 : 0 ≤ x
    · have hx0 : x = 0 := le_antisymm hx h0
      subst hx0
      constructor
      · simp [house_round_charge, quantizeAwayFromZero]
      · simp [house_round_credit, quantizeTowardZero]
    · constructor
      · simp only [house_round_charge, quantizeAwayFromZero, if_neg h0]
        rw [div_le_iff₀ (by norm_num : (0:ℚ) < 100)]
        calc ((⌊100 * x⌋ : ℤ) : ℚ) ≤ 100 * x := Int.floor_le _
          _ = x * 100 := by ring
      · simp only [house_round_credit, quantizeTowardZero, if_neg h0]
        rw [le_div_iff₀ (by norm_num : (0:ℚ) < 100)]
        calc x * 100 = 100 * x := by ring
          _ ≤ ((⌈100 * x⌉ : ℤ) : ℚ) := Int.le_ceil _

theorem house_round_bounds_witness :
    (0 ≤ (157/100 : ℚ) ∧
      (house_round_credit (157/100) ≤ 157/100 ∧ (157/100 : ℚ) ≤ house_round_charge (157/100))) ∧
    ((-(157/100) : ℚ) ≤ 0 ∧
      (house_round_charge (-(157/100)) ≤ -(157/100) ∧
        (-(157/100) : ℚ) ≤ house_round_credit (-(157/100)))) :=
  ⟨⟨by norm_num, (house_round_bounds (157/100)).1 (by norm_num)⟩,
   ⟨by norm_num, (house_round_bounds (-(157/100))).2 (by norm_num)⟩⟩

/-- C5: hand scores are totally ordered by the lexicographic order on the
result lists (Python tuple comparison), and the straight-flush category 8
beats the four-of-a-kind category 7. -/
theorem evaluateBestSeven_total_order :
    (∀ (A B : List Card) (a b : List ℕ), A.length = 7 → B.length = 7 →
      evaluateBestSeven A = some a → evaluateBestSeven B = some b →
      ((a < b ∧ ¬a = b ∧ ¬b < a) ∨ (a = b ∧ ¬a < b ∧ ¬b < a) ∨
        (b < a ∧ ¬a = b ∧ ¬a < b))) ∧
    (∀ (A B : List Card) (a b : List ℕ),
      evaluateBestSeven A = some a → evaluateBestSeven B = some b →
      a.headD 0 = 8 → b.headD 0 = 7 → b < a) := by
  constructor
  · intro A B a b _ _ _ _
    rcases lt_trichotomy a b with h | h | h
    · exact Or.inl ⟨h, ne_of_lt h, not_lt_of_gt h⟩
    · exact Or.inr (Or.inl ⟨h, by simp [h], by simp [h]⟩)
    · exact Or.inr (Or.inr ⟨h, (ne_of_lt h).symm, not_lt_of_gt h⟩)
  · intro A B a b _ _ ha hb
    obtain ⟨s, rfl⟩ : ∃ s, a = 8 :: s := by
      cases a with
      | nil => simp at ha
      | cons x xs => exact ⟨xs, by simp_all⟩
    obtain ⟨t, rfl⟩ : ∃ t, b = 7 :: t := by
      cases b with
      | nil => simp at hb
      | cons x xs => exact ⟨xs, by simp_all⟩
    exact List.Lex.rel (by norm_num)

theorem evaluateBestSeven_total_order_witness :
    (sfHand.length = 7 ∧ quadHand.length = 7 ∧
      evaluateBestSeven sfHand = some [8, 14] ∧
      evaluateBestSeven quadHand = some [7, 9, 5]) ∧
    ((([8, 14] : List ℕ) < [7, 9, 5] ∧ ¬([8, 14] : List ℕ) = [7, 9, 5] ∧
        ¬([7, 9, 5] : List ℕ) < [8, 14]) ∨
      (([8, 14] : List ℕ) = [7, 9, 5] ∧ ¬([8, 14] : List ℕ) < [7, 9, 5] ∧
        ¬([7, 9, 5] : List ℕ) < [8, 14]) ∨
      (([7, 9, 5] : List ℕ) < [8, 14] ∧ ¬([8, 14] : List ℕ) = [7, 9, 5] ∧
        ¬([8, 14] : List ℕ) < [7, 9, 5])) ∧
    ([7, 9, 5] : List ℕ) < [8, 14] :=
  ⟨⟨rfl, rfl, by decide, by decide⟩,
   evaluateBestSeven_total_order.1 sfHand quadHand [8, 14] [7, 9, 5] rfl rfl
     (by decide) (by decide),
   evaluateBestSeven_total_order.2 sfHand quadHand [8, 14] [7, 9, 5]
     (by decide) (by decide) rfl rfl⟩

/-- C1: chip conservation fails — in a 3-player hand created with 1100
cents on the table, an accepted raise, two calls and a fold finish the
preflop street, after which the stacks, street commitments and pot sum to
1050: `run_showdown` skips a side-pot layer whose only eligible player has
folded, so 50 cents vanish. -/
theorem chip_conservation_code_bug :
    createHand [("A", 1000), ("B", 50), ("C", 50)] 10 20 none 0 orderedDeck = some c1Hand0 ∧
    (c1Hand0.players.map (fun p => p.stack + p.committedTotal)).sum = 1100 ∧
    c1Step1.1 = true ∧ c1Step2.1 = true ∧ c1Step3.1 = true ∧ c1Step4.1 = true ∧
    c1Step4.2.2.street = Street.finished ∧
    (c1Step4.2.2.players.map Player.stack).sum = 1050 ∧
    ((1050 : ℤ) ≠ 1100) := by decide

theorem legalActions_all_in_cex :
    (legalActions c6State "B").actions = ["fold", "call"] ∧
    ((c6State.players.find? (fun p => p.name == "B")).map Player.stack) = some 30 ∧
    ¬("all_in" ∈ (legalActions c6State "B").actions) ∧ ((0 : ℤ) < 30) := by decide

theorem legalActions_gating_witness :
    ("check" ∈ (legalActions c6State "B").actions →
      max 0 (c6State.currentBet - c6PlayerB.streetCommit) = 0) ∧
    ("bet" ∈ (legalActions c6State "B").actions →
      max 0 (c6State.currentBet - c6PlayerB.streetCommit) = 0 ∧
      max 0 (c6State.currentBet - c6PlayerB.streetCommit) < c6PlayerB.stack) ∧
    ("raise" ∈ (legalActions c6State "B").actions →
      0 < max 0 (c6State.currentBet - c6PlayerB.streetCommit) ∧
      max 0 (c6State.currentBet - c6PlayerB.streetCommit) < c6PlayerB.stack) ∧
    ("all_in" ∈ (legalActions c6State "B").actions ↔
      max 0 (c6State.currentBet - c6PlayerB.streetCommit) < c6PlayerB.stack) :=
  legalActions_gating c6State "B" 1 c6PlayerB c6PlayerB (by decide) rfl (by decide) rfl
    (by decide) rfl rfl

theorem applyAction_reject_atomic_witness :
    (applyAction c6State "B" "check" none).1 = false ∧
    ((applyAction c6State "B" "check" none).2.2 = c6State ∧
      (applyAction c6State "B" "check" none).2.1 ≠ "") :=
  ⟨by decide, applyAction_reject_atomic c6State "B" "check" none (by decide)⟩

theorem applyAction_min_raise_rule_witness :
    (c4State.minRaise ≤ c4Actor1.streetCommit - c4State.currentBet →
      c4After.minRaise = c4Actor1.streetCommit - c4State.currentBet ∧
      c4After.currentBet = c4Actor1.streetCommit) ∧
    (c4Actor1.streetCommit - c4State.currentBet < c4State.minRaise →
      c4After.minRaise = c4State.minRaise ∧ c4After.currentBet = c4Actor1.streetCommit) :=
  applyAction_min_raise_rule c4State "A" (some 100) c4After 0 c4Actor1
    (Or.inl (by decide)) rfl (by decide) (by decide)

theorem applyAction_call_never_rejected_witness :
    ∃ st1 actor1, applyActionCore c6State "B" "call" none = .ok st1 ∧
      st1.players.get? 1 = some actor1 ∧
      actor1.stack = c6PlayerB.stack -
        min c6PlayerB.stack (c6State.currentBet - c6PlayerB.streetCommit) ∧
      actor1.streetCommit = c6PlayerB.streetCommit +
        min c6PlayerB.stack (c6State.currentBet - c6PlayerB.streetCommit) ∧
      actor1.committedTotal = c6PlayerB.committedTotal +
        min c6PlayerB.stack (c6State.currentBet - c6PlayerB.streetCommit) ∧
      (actor1.allIn = true ↔ actor1.stack = 0) :=
  applyAction_call_never_rejected c6State "B" none 1 c6PlayerB (by decide) rfl rfl rfl
    rfl rfl (by decide)

theorem c9_legal : legalActions c9State "Bot" =
    { actions := ["fold", "check", "bet", "all_in"], toCall := some 0,
      minBet := some (1/5), maxBet := some (1/20) } := by
  norm_num [legalActions, c9State, c9Bot, fromCents]
  rintro (h | h) <;> exact absurd h (by decide)

set_option maxHeartbeats 2000000 in
theorem c9_strength : strength0100 c9State c9Bot = (653/9, 0) := by
  have hbest : evaluateBestSeven
      [(⟨14, 0⟩ : Card), ⟨14, 1⟩, ⟨14, 2⟩, ⟨7, 3⟩, ⟨2, 0⟩] = some [3, 14, 7, 2] := by decide
  have hcat : handCategoryValue [(⟨14, 0⟩ : Card), ⟨14, 1⟩] [⟨14, 2⟩, ⟨7, 3⟩, ⟨2, 0⟩] = 3 := by
    decide
  norm_num [strength0100, c9State, c9Bot, hcat, hbest]
  decide

set_option maxHeartbeats 2000000 in
theorem c9_bot : chooseBotAction c9State "Bot" (legalActions c9State "Bot") 1 =
    ("bet", some (1/5)) := by
  have hfind : c9State.players.find? (fun p => p.name == "Bot") = some c9Bot := by decide
  have hprof : botProfile "Bot" = (1/10, 1/10) := by
    norm_num [botProfile, show ('B'.toNat) = 66 from by decide,
      show ('o'.toNat) = 111 from by decide, show ('t'.toNat) = 116 from by decide]
  have hpot : c9State.pot = 40 := rfl
  have hboard : c9State.board = [⟨14, 2⟩, ⟨7, 3⟩, ⟨2, 0⟩] := rfl
  have hlog : c9State.actionLog = [] := rfl
  have hstk : c9Bot.stack = 5 := rfl
  rw [c9_legal]
  norm_num [chooseBotAction, hfind, c9_strength, hprof, hpot, hboard, hlog, hstk,
    roundHalfEven2, roundHalfEvenInt]
  intro h
  exact absurd h (by decide)

theorem bjAdjust_ge (aces : ℕ) : ∀ total : ℕ, total - 10 * aces ≤ bjAdjust total aces := by
  induction aces with
  | zero => intro total; simp [bjAdjust]
  | succ n ih =>
    intro total
    simp only [bjAdjust]
    split
    · have := ih (total - 10)
      omega
    · omega

theorem bjValueSum_eq (cards : List BJCard) :
    (cards.map bjCardValue).sum = bjMinTotal cards + 10 * bjAceCount cards := by
  induction cards with
  | nil => rfl
  | cons c rest ih =>
    have hstep : bjCardValue c = bjMinValue c + (if c.rank = "A" then 10 else 0) := by
      by_cases hA : c.rank = "A"
      · simp [bjCardValue, bjMinValue, hA]
      · simp [bjMinValue, hA]
    have hace : bjAceCount (c :: rest) =
        (if c.rank = "A" then 1 else 0) + bjAceCount rest := by
      by_cases hA : c.rank = "A"
      · simp [bjAceCount, List.filter_cons, hA]
        omega
      · simp [bjAceCount, List.filter_cons, hA]
    have hmin : bjMinTotal (c :: rest) = bjMinValue c + bjMinTotal rest := by
      simp [bjMinTotal]
    simp only [List.map_cons, List.sum_cons, hstep, hace, hmin]
    by_cases hA : c.rank = "A" <;> simp [hA, ih] <;> omega

theorem bjMinTotal_le (cards : List BJCard) :
    bjMinTotal cards ≤ blackjackHandTotal cards := by
  have h1 := bjAdjust_ge (bjAceCount cards) ((cards.map bjCardValue).sum)
  have h2 := bjValueSum_eq cards
  simp only [blackjackHandTotal]
  omega

theorem bjMinTotal_append (cards : List BJCard) (c : BJCard) :
    bjMinTotal (cards ++ [c]) = bjMinTotal cards + bjMinValue c := by
  simp [bjMinTotal]

theorem dealerPlayGo_reaches_of_good (fresh : ℕ → List BJCard)
    (hfresh : ∀ j, fresh j ≠ [] ∧ ∀ c ∈ fresh j, 1 ≤ bjMinValue c) (fuel : ℕ) :
    ∀ (cards deck : List BJCard) (k : ℕ), (∀ c ∈ deck, 1 ≤ bjMinValue c) →
      17 ≤ bjMinTotal cards + fuel →
      17 ≤ blackjackHandTotal (dealerPlayGo fresh fuel cards deck k).1 := by
  induction fuel with
  | zero =>
    intro cards deck k _ hb
    have := bjMinTotal_le cards
    show 17 ≤ blackjackHandTotal cards
    omega
  | succ n ih =>
    intro cards deck k hgood hb
    simp only [dealerPlayGo]
    split
    · match deck, hgood with
      | c :: rest, hgood =>
        apply ih (cards ++ [c]) rest k (fun x hx => hgood x (List.mem_cons_of_mem c hx))
        have hc := hgood c (List.mem_cons_self c rest)
        rw [bjMinTotal_append]
        omega
      | [], _ =>
        obtain ⟨hne, hall⟩ := hfresh k
        match hfk : fresh k, hne with
        | c :: rest, _ =>
          apply ih (cards ++ [c]) rest (k + 1)
            (fun x hx => hall x (by rw [hfk]; exact List.mem_cons_of_mem c hx))
          have hc := hall c (by rw [hfk]; exact List.mem_cons_self c rest)
          rw [bjMinTotal_append]
          omega
    · rename_i h
      exact not_lt.mp h

theorem dealerPlayGo_reaches (fresh : ℕ → List BJCard)
    (hfresh : ∀ j, fresh j ≠ [] ∧ ∀ c ∈ fresh j, 1 ≤ bjMinValue c) (fuel : ℕ) :
    ∀ (cards deck : List BJCard) (k : ℕ), deck.length + 17 ≤ fuel →
      17 ≤ blackjackHandTotal (dealerPlayGo fresh fuel cards deck k).1 := by
  induction fuel with
  | zero =>
    intro cards deck k hb
    omega
  | succ n ih =>
    intro cards deck k hb
    simp only [dealerPlayGo]
    split
    · match deck, hb with
      | c :: rest, hb =>
        apply ih (cards ++ [c]) rest k
        simp only [List.length_cons] at hb
        omega
      | [], hb =>
        obtain ⟨hne, hall⟩ := hfresh k
        match hfk : fresh k, hne with
        | c :: rest, _ =>
          apply dealerPlayGo_reaches_of_good fresh hfresh n (cards ++ [c]) rest (k + 1)
            (fun x hx => hall x (by rw [hfk]; exact List.mem_cons_of_mem c hx))
          have hc := hall c (by rw [hfk]; exact List.mem_cons_self c rest)
          rw [bjMinTotal_append]
          simp only [List.length_nil] at hb
          omega
    · rename_i h
      exact not_lt.mp h

theorem dealerPlay_reaches_17 (cards deck : List BJCard) (fresh : ℕ → List BJCard)
    (hfresh : ∀ j, (fresh j).Perm bjFreshDeck) :
    17 ≤ blackjackHandTotal (dealerPlay cards deck fresh).1 := by
  have hall : ∀ x ∈ bjFreshDeck, 1 ≤ bjMinValue x := by decide
  have hlen : bjFreshDeck.length = 52 := by decide
  have hgood : ∀ j, fresh j ≠ [] ∧ ∀ c ∈ fresh j, 1 ≤ bjMinValue c := by
    intro j
    constructor
    · intro he
      have hl := (hfresh j).length_eq
      rw [he, hlen] at hl
      exact absurd hl.symm (by decide)
    · intro c hc
      exact hall c ((hfresh j).mem_iff.mp hc)
  exact dealerPlayGo_reaches fresh hgood (deck.length + 18) cards deck 0 (by omega)

theorem settleOutcome_spec (dt : ℕ) (dn : Bool) (pt : ℕ) (pn : Bool)
    (status : String) (bet : ℚ) :
    ((status = "busted" ∨ 21 < pt) →
      settleOutcome dt dn pt pn status bet =
        ("loss", 0, false, (settleOutcome dt dn pt pn status bet).2.2.2)) ∧
    (¬(status = "busted" ∨ 21 < pt) → 21 < dt → pn = true → dn = false →
      settleOutcome dt dn pt pn status bet =
        ("blackjack", house_round_credit (bet * (5/2)), true,
          (settleOutcome dt dn pt pn status bet).2.2.2)) ∧
    (¬(status = "busted" ∨ 21 < pt) → 21 < dt → ¬(pn = true ∧ dn = false) →
      settleOutcome dt dn pt pn status bet =
        ("win", house_round_credit (bet * 2), true,
          (settleOutcome dt dn pt pn status bet).2.2.2)) ∧
    (¬(status = "busted" ∨ 21 < pt) → dt ≤ 21 → pn = true → dn = false →
      settleOutcome dt dn pt pn status bet =
        ("blackjack", house_round_credit (bet * (5/2)), true,
          (settleOutcome dt dn pt pn status bet).2.2.2)) ∧
    (¬(status = "busted" ∨ 21 < pt) → dt ≤ 21 → dn = true → pn = false →
      settleOutcome dt dn pt pn status bet =
        ("loss", 0, false, (settleOutcome dt dn pt pn status bet).2.2.2)) ∧
    (¬(status = "busted" ∨ 21 < pt) → dt ≤ 21 → pn = dn → dt < pt →
      settleOutcome dt dn pt pn status bet =
        ("win", house_round_credit (bet * 2), true,
          (settleOutcome dt dn pt pn status bet).2.2.2)) ∧
    (¬(status = "busted" ∨ 21 < pt) → dt ≤ 21 → pn = dn → pt = dt →
      settleOutcome dt dn pt pn status bet =
        ("push", house_round_credit bet, false,
          (settleOutcome dt dn pt pn status bet).2.2.2)) ∧
    (¬(status = "busted" ∨ 21 < pt) → dt ≤ 21 → pn = dn → pt < dt →
      settleOutcome dt dn pt pn status bet =
        ("loss", 0, false, (settleOutcome dt dn pt pn status bet).2.2.2)) := by
  refine ⟨?_, ?_, ?_, ?_, ?_, ?_, ?_, ?_⟩
  · intro h
    simp [settleOutcome, h]
  · intro hb hdt hpn hdn
    obtain ⟨hs, hpt⟩ := not_or.mp hb
    subst hpn; subst hdn
    simp [settleOutcome, hs, hpt, hdt]
  · intro hb hdt hnd
    obtain ⟨hs, hpt⟩ := not_or.mp hb
    cases pn <;> cases dn
    · simp [settleOutcome, hs, hpt, hdt]
    · simp [settleOutcome, hs, hpt, hdt]
    · exact absurd ⟨rfl, rfl⟩ hnd
    · simp [settleOutcome, hs, hpt, hdt]
  · intro hb hdt hpn hdn
    obtain ⟨hs, hpt⟩ := not_or.mp hb
    have h1 : ¬(21 < dt) := by omega
    subst hpn; subst hdn
    simp [settleOutcome, hs, hpt, h1]
  · intro hb hdt hdn hpn
    obtain ⟨hs, hpt⟩ := not_or.mp hb
    have h1 : ¬(21 < dt) := by omega
    subst hpn; subst hdn
    simp [settleOutcome, hs, hpt, h1]
  · intro hb hdt hpd hlt
    obtain ⟨hs, hpt⟩ := not_or.mp hb
    have h1 : ¬(21 < dt) := by omega
    cases pn <;> cases dn
    · simp [settleOutcome, hs, hpt, h1, hlt]
    · exact absurd hpd (by decide)
    · exact absurd hpd (by decide)
    · simp [settleOutcome, hs, hpt, h1, hlt]
  · intro hb hdt hpd heq
    obtain ⟨hs, hpt⟩ := not_or.mp hb
    have h1 : ¬(21 < dt) := by omega
    have h2 : ¬(dt < pt) := by omega
    cases pn <;> cases dn
    · simp [settleOutcome, hs, hpt, h1, h2, heq]
    · exact absurd hpd (by decide)
    · exact absurd hpd (by decide)
    · simp [settleOutcome, hs, hpt, h1, h2, heq]
  · intro hb hdt hpd hlt
    obtain ⟨hs, hpt⟩ := not_or.mp hb
    have h1 : ¬(21 < dt) := by omega
    have h2 : ¬(dt < pt) := by omega
    have h3 : ¬(pt = dt) := by omega
    cases pn <;> cases dn
    · simp [settleOutcome, hs, hpt, h1, h2, h3]
    · exact absurd hpd (by decide)
    · exact absurd hpd (by decide)
    · simp [settleOutcome, hs, hpt, h1, h2, h3]

theorem appendBJHistory_phase (t : BJTable) (m : String) :
    (appendBJHistory t m).phase = t.phase := by
  simp only [appendBJHistory]; split <;> rfl

theorem appendBJHistory_players (t : BJTable) (m : String) :
    (appendBJHistory t m).players = t.players := by
  simp only [appendBJHistory]; split <;> rfl

theorem appendBJHistory_playerStates (t : BJTable) (m : String) :
    (appendBJHistory t m).playerStates = t.playerStates := by
  simp only [appendBJHistory]; split <;> rfl

theorem appendBJHistory_turnOrder (t : BJTable) (m : String) :
    (appendBJHistory t m).turnOrder = t.turnOrder := by
  simp only [appendBJHistory]; split <;> rfl

theorem appendBJHistory_turnIndex (t : BJTable) (m : String) :
    (appendBJHistory t m).turnIndex = t.turnIndex := by
  simp only [appendBJHistory]; split <;> rfl

theorem appendBJHistory_turnStartedEpoch (t : BJTable) (m : String) :
    (appendBJHistory t m).turnStartedEpoch = t.turnStartedEpoch := by
  simp only [appendBJHistory]; split <;> rfl

theorem appendBJHistory_inProgress (t : BJTable) (m : String) :
    (appendBJHistory t m).inProgress = t.inProgress := by
  simp only [appendBJHistory]; split <;> rfl

theorem appendBJHistory_dealerCards (t : BJTable) (m : String) :
    (appendBJHistory t m).dealerCards = t.dealerCards := by
  simp only [appendBJHistory]; split <;> rfl

theorem appendBJHistory_deckDraw (t : BJTable) (m : String) :
    (appendBJHistory t m).deckDraw = t.deckDraw := by
  simp only [appendBJHistory]; split <;> rfl

theorem appendBJHistory_host (t : BJTable) (m : String) :
    (appendBJHistory t m).host = t.host := by
  simp only [appendBJHistory]; split <;> rfl

theorem currentTurnPlayer_appendBJHistory (t : BJTable) (m : String) :
    currentTurnPlayer (appendBJHistory t m) = currentTurnPlayer t := by
  simp only [currentTurnPlayer, appendBJHistory_turnOrder, appendBJHistory_turnIndex]

set_option maxHeartbeats 2000000 in
theorem c7_scenario :
    (lookupAccount (blackjackFinishRound c7Accounts c7Table bjConstFresh 100).1 "P").map Account.balance =
      some 1250 ∧
    (lookupAccount (blackjackFinishRound c7Accounts c7Table bjConstFresh 100).1 "P").map
      (fun a => a.stats.totalGameNet) = some 750 ∧
    (lookupAccount (blackjackFinishRound c7Accounts c7Table bjConstFresh 100).1 "P").map
      (fun a => (a.stats.roundsPlayed, a.stats.roundsWon)) = some (1, 1) ∧
    (lookupBJState (blackjackFinishRound c7Accounts c7Table bjConstFresh 100).2 "P").map
      (fun p => (p.payout, p.result)) = some (1250, some "blackjack") ∧
    (blackjackFinishRound c7Accounts c7Table bjConstFresh 100).2.phase = "finished" := by
  have hdp : dealerPlay [⟨"K", "S"⟩, ⟨"9", "H"⟩] ([] : List BJCard) bjConstFresh =
      ([⟨"K", "S"⟩, ⟨"9", "H"⟩], []) := by decide
  have hdt : blackjackHandTotal [⟨"K", "S"⟩, ⟨"9", "H"⟩] = 19 := by decide
  have hdn : blackjackIsNatural [⟨"K", "S"⟩, ⟨"9", "H"⟩] = false := by decide
  have hpt : blackjackHandTotal [⟨"A", "S"⟩, ⟨"K", "H"⟩] = 21 := by decide
  norm_num [blackjackFinishRound, settlePlayerStep, hdp, hdt, hdn, hpt, c7Table, c7PState, c7Accounts,
    defaultBJTable, defaultBJPlayerState, zeroStats, lookupAccount, lookupBJState,
    updateAccount, updateBJState, blackjackRecordResult, applyResultToStatsBucket,
    normalizeStatsBucket, settleOutcome, house_round_credit, house_round_balance,
    house_round_delta, quantizeTowardZero, quantizeAwayFromZero,
    appendBJHistory_playerStates, appendBJHistory_phase,
    show ("stood" : String) ≠ "busted" from by decide]

theorem lookupAccount_updateAccount_other (accounts : List (String × Account))
    (q p : String) (f : Account → Account) (hne : p ≠ q) :
    lookupAccount (updateAccount accounts q f) p = lookupAccount accounts p := by
  induction accounts with
  | nil => rfl
  | cons a rest ih =>
    obtain ⟨k, acct⟩ := a
    simp only [updateAccount]
    by_cases hk : k = q
    · rw [if_pos hk]
      subst hk
      have hkp : ((k, f acct).1 == p) = false := beq_eq_false_iff_ne.mpr (Ne.symm hne)
      have hkp2 : ((k, acct).1 == p) = false := beq_eq_false_iff_ne.mpr (Ne.symm hne)
      simp only [lookupAccount, List.find?_cons_of_neg, hkp, hkp2, Bool.false_eq_true,
        not_false_iff]
    · rw [if_neg hk]
      by_cases hkp : k = p
      · subst hkp
        simp [lookupAccount, List.find?_cons_of_pos]
      · have h1 : ((k, acct).1 == p) = false := beq_eq_false_iff_ne.mpr hkp
        simp only [lookupAccount, List.find?_cons_of_neg, h1, Bool.false_eq_true,
          not_false_iff]
        exact ih

theorem lookupAccount_updateAccount_self (accounts : List (String × Account))
    (p : String) (f : Account → Account) :
    lookupAccount (updateAccount accounts p f) p = (lookupAccount accounts p).map f := by
  induction accounts with
  | nil => rfl
  | cons a rest ih =>
    obtain ⟨k, acct⟩ := a
    simp only [updateAccount]
    by_cases hk : k = p
    · subst hk
      simp [lookupAccount, List.find?_cons_of_pos]
    · rw [if_neg hk]
      have h1 : ((k, acct).1 == p) = false := beq_eq_false_iff_ne.mpr hk
      simp only [lookupAccount, List.find?_cons_of_neg, h1, Bool.false_eq_true,
        not_false_iff]
      exact ih

theorem lookupAccount_recordResult_other (accounts : List (String × Account))
    (q p : String) (buyIn payout : ℚ) (won : Bool) (hne : p ≠ q) :
    lookupAccount (blackjackRecordResult accounts q buyIn payout won) p =
      lookupAccount accounts p :=
  lookupAccount_updateAccount_other accounts q p _ hne

theorem currentTurnPlayer_mem (t : BJTable) (q : String)
    (h : currentTurnPlayer t = some q) : q ∈ t.turnOrder := by
  simp only [currentTurnPlayer] at h
  exact List.get?_mem h

theorem settlePlayerStep_accounts_other (dt : ℕ) (dn : Bool)
    (acc : List (String × Account) × List (String × BJPlayerState)) (nm p : String)
    (hne : p ≠ nm) :
    lookupAccount (settlePlayerStep dt dn acc nm).1 p = lookupAccount acc.1 p := by
  simp only [settlePlayerStep]
  repeat' split
  all_goals try rfl
  all_goals rw [lookupAccount_recordResult_other _ _ _ _ _ _ hne]
  all_goals first
    | rfl
    | rw [lookupAccount_updateAccount_other _ _ _ _ hne]

theorem finishFold_accounts_other (dt : ℕ) (dn : Bool) (names : List String)
    (p : String) (hp : p ∉ names) :
    ∀ (acc : List (String × Account) × List (String × BJPlayerState)),
      lookupAccount (names.foldl (settlePlayerStep dt dn) acc).1 p =
        lookupAccount acc.1 p := by
  induction names with
  | nil => intro acc; rfl
  | cons nm rest ih =>
    intro acc
    have hne : p ≠ nm := fun h => hp (h ▸ List.mem_cons_self nm rest)
    have hrest : p ∉ rest := fun h => hp (List.mem_cons_of_mem nm h)
    rw [List.foldl_cons, ih hrest, settlePlayerStep_accounts_other dt dn acc nm p hne]

theorem blackjackFinishRound_accounts_other
    (accounts : List (String × Account)) (t : BJTable) (fresh : ℕ → List BJCard)
    (now : ℚ) (p : String) (hp : p ∉ t.players) :
    lookupAccount (blackjackFinishRound accounts t fresh now).1 p =
      lookupAccount accounts p := by
  simp only [blackjackFinishRound]
  exact finishFold_accounts_other _ _ t.players p hp (accounts, t.playerStates)

theorem eject_accounts_other (accounts : List (String × Account)) (t : BJTable)
    (q : String) (settings : BJSettings) (p : String) (hne : p ≠ q) :
    lookupAccount (blackjackEjectForTimeout accounts t q settings).1 p =
      lookupAccount accounts p := by
  simp only [blackjackEjectForTimeout]
  repeat' split
  all_goals try rfl
  all_goals rw [lookupAccount_recordResult_other _ _ _ _ _ _ hne]
  all_goals first
    | rfl
    | rw [lookupAccount_updateAccount_other _ _ _ _ hne]

theorem eject_accounts_self (accounts : List (String × Account)) (t : BJTable)
    (p : String) (settings : BJSettings) (acct : Account)
    (hmem : p ∈ t.players) (hacct : lookupAccount accounts p = some acct) :
    lookupAccount (blackjackEjectForTimeout accounts t p settings).1 p =
      some
        { balance :=
            if 0 < house_round_credit
                ((house_round_credit ((lookupBJState t p).getD defaultBJPlayerState).bet *
                  settings.timeoutPenaltyPercent) / 100) then
              house_round_balance (acct.balance -
                house_round_credit
                  ((house_round_credit ((lookupBJState t p).getD defaultBJPlayerState).bet *
                    settings.timeoutPenaltyPercent) / 100))
            else acct.balance,
          stats := applyResultToStatsBucket (normalizeStatsBucket acct.stats)
            (house_round_credit ((lookupBJState t p).getD defaultBJPlayerState).bet +
              house_round_credit
                ((house_round_credit ((lookupBJState t p).getD defaultBJPlayerState).bet *
                  settings.timeoutPenaltyPercent) / 100)) 0 false,
          blackjackStats := applyResultToStatsBucket (normalizeStatsBucket acct.blackjackStats)
            (house_round_credit ((lookupBJState t p).getD defaultBJPlayerState).bet +
              house_round_credit
                ((house_round_credit ((lookupBJState t p).getD defaultBJPlayerState).bet *
                  settings.timeoutPenaltyPercent) / 100)) 0 false } := by
  simp only [blackjackEjectForTimeout, if_neg (not_not_intro hmem)]
  set ps := (lookupBJState t p).getD defaultBJPlayerState with hps
  set bet := house_round_credit ps.bet with hbet
  set penalty := house_round_credit ((bet * settings.timeoutPenaltyPercent) / 100) with hpen
  have hcore :
      lookupAccount
        (blackjackRecordResult
          (if 0 < penalty then
            updateAccount accounts p (fun a =>
              { a with balance := house_round_balance (a.balance - penalty) })
          else accounts) p (bet + penalty) 0 false) p =
      some
        { balance := if 0 < penalty then house_round_balance (acct.balance - penalty)
            else acct.balance,
          stats := applyResultToStatsBucket (normalizeStatsBucket acct.stats)
            (bet + penalty) 0 false,
          blackjackStats := applyResultToStatsBucket (normalizeStatsBucket acct.blackjackStats)
            (bet + penalty) 0 false } := by
    by_cases hpos : 0 < penalty
    · rw [if_pos hpos, blackjackRecordResult, lookupAccount_updateAccount_self,
        lookupAccount_updateAccount_self, hacct, Option.map_some', Option.map_some',
        if_pos hpos]
    · rw [if_neg hpos, blackjackRecordResult, lookupAccount_updateAccount_self, hacct,
        Option.map_some', if_neg hpos]
  rw [hacct]
  rw [apply_ite Prod.fst, ite_self]
  exact hcore

theorem eject_not_mem (accounts : List (String × Account)) (t : BJTable)
    (p : String) (settings : BJSettings) (hmem : p ∈ t.players) :
    p ∉ (blackjackEjectForTimeout accounts t p settings).2.players ∧
    p ∉ (blackjackEjectForTimeout accounts t p settings).2.turnOrder := by
  simp only [blackjackEjectForTimeout, if_neg (not_not_intro hmem)]
  repeat' split
  all_goals simp [defaultBJTable, appendBJHistory_players, appendBJHistory_turnOrder]

theorem eject_table_keep (accounts : List (String × Account)) (t : BJTable)
    (p : String) (settings : BJSettings) (hmem : p ∈ t.players)
    (hne : t.players.filter (fun x => x ≠ p) ≠ []) :
    (blackjackEjectForTimeout accounts t p settings).2.players =
      t.players.filter (fun x => x ≠ p) ∧
    (blackjackEjectForTimeout accounts t p settings).2.turnOrder =
      t.turnOrder.filter (fun x => x ≠ p) ∧
    (blackjackEjectForTimeout accounts t p settings).2.turnIndex = t.turnIndex ∧
    (blackjackEjectForTimeout accounts t p settings).2.phase = t.phase := by
  simp only [blackjackEjectForTimeout, if_neg (not_not_intro hmem)]
  rw [if_neg hne]
  exact ⟨appendBJHistory_players _ _, appendBJHistory_turnOrder _ _,
    appendBJHistory_turnIndex _ _, appendBJHistory_phase _ _⟩

theorem eject_table_reset (accounts : List (String × Account)) (t : BJTable)
    (p : String) (settings : BJSettings) (hmem : p ∈ t.players)
    (heq : t.players.filter (fun x => x ≠ p) = []) :
    (blackjackEjectForTimeout accounts t p settings).2 =
      { defaultBJTable t.id with name := normalizeBJTableName t.name t.id } := by
  simp only [blackjackEjectForTimeout, if_neg (not_not_intro hmem)]
  rw [if_pos heq]

theorem eject_players_subset (accounts : List (String × Account)) (t : BJTable)
    (q : String) (settings : BJSettings) (x : String)
    (hx : x ∈ (blackjackEjectForTimeout accounts t q settings).2.players) :
    x ∈ t.players := by
  by_cases hmem : q ∈ t.players
  · by_cases hne : t.players.filter (fun y => y ≠ q) = []
    · rw [eject_table_reset accounts t q settings hmem hne] at hx
      simp [defaultBJTable] at hx
    · rw [(eject_table_keep accounts t q settings hmem hne).1] at hx
      exact List.mem_of_mem_filter hx
  · simp only [blackjackEjectForTimeout, if_pos hmem] at hx
    exact hx

theorem finishRound_table_players (a : List (String × Account)) (t : BJTable) (fresh : ℕ → List BJCard) (now : ℚ) :
    (blackjackFinishRound a t fresh now).2.players = t.players := by
  simp only [blackjackFinishRound, appendBJHistory_players]

theorem finishRound_table_phase (a : List (String × Account)) (t : BJTable) (fresh : ℕ → List BJCard) (now : ℚ) :
    (blackjackFinishRound a t fresh now).2.phase = "finished" := by
  simp only [blackjackFinishRound, appendBJHistory_phase]

theorem finishRound_table_turnOrder (a : List (String × Account)) (t : BJTable) (fresh : ℕ → List BJCard) (now : ℚ) :
    (blackjackFinishRound a t fresh now).2.turnOrder = [] := by
  simp only [blackjackFinishRound, appendBJHistory_turnOrder]

theorem blackjackEnforce_preserves (accounts : List (String × Account)) (t : BJTable)
    (settings : BJSettings) (fresh : ℕ → List BJCard) (now : ℚ) (p : String)
    (hp1 : p ∉ t.players) (hp2 : p ∉ t.turnOrder) :
    lookupAccount (blackjackEnforceTimeoutForTable accounts t settings fresh now).1 p =
      lookupAccount accounts p := by
  simp only [blackjackEnforceTimeoutForTable]
  split
  · rfl
  · split
    · rfl
    · split
      · rfl
      · split
        · rfl
        · rename_i x timedOut heq
          have hq : timedOut ∈ t.turnOrder := currentTurnPlayer_mem t timedOut heq
          have hne : p ≠ timedOut := fun h => hp2 (h ▸ hq)
          have hej := eject_accounts_other accounts t timedOut settings p hne
          split
          · exact hej
          · split
            · rw [blackjackFinishRound_accounts_other]
              · exact hej
              · rw [appendBJHistory_players]
                intro hx
                exact hp1 (eject_players_subset accounts t timedOut settings p hx)
            · exact hej

/-- C8: when the current blackjack player's turn has exceeded the timeout,
the enforcement sweep ejects them from the table (players and turn order),
charges the configured penalty percentage of their bet against their balance
exactly once while recording a loss, and — provided other players remain —
either hands the turn to a different player with a fresh timer or finishes
the round; a second sweep never touches the ejected player's account again. -/
theorem blackjack_timeout_ejection
    (accounts : List (String × Account)) (table : BJTable) (settings : BJSettings)
    (fresh : ℕ → List BJCard) (now : ℚ) (p : String) (acct : Account)
    (hphase : table.phase = "player_turns")
    (hprog : table.inProgress = true)
    (hstart : 0 < table.turnStartedEpoch)
    (helapsed : ((max 5 settings.turnTimeoutSeconds : ℤ) : ℚ) ≤ now - table.turnStartedEpoch)
    (hcur : currentTurnPlayer table = some p)
    (hmem : p ∈ table.players)
    (hacct : lookupAccount accounts p = some acct) :
    p ∉ (blackjackEnforceTimeoutForTable accounts table settings fresh now).2.players ∧
    p ∉ (blackjackEnforceTimeoutForTable accounts table settings fresh now).2.turnOrder ∧
    lookupAccount (blackjackEnforceTimeoutForTable accounts table settings fresh now).1 p =
      some
        { balance :=
            if 0 < house_round_credit
                ((house_round_credit ((lookupBJState table p).getD defaultBJPlayerState).bet *
                  settings.timeoutPenaltyPercent) / 100) then
              house_round_balance (acct.balance -
                house_round_credit
                  ((house_round_credit ((lookupBJState table p).getD defaultBJPlayerState).bet *
                    settings.timeoutPenaltyPercent) / 100))
            else acct.balance,
          stats := applyResultToStatsBucket (normalizeStatsBucket acct.stats)
            (house_round_credit ((lookupBJState table p).getD defaultBJPlayerState).bet +
              house_round_credit
                ((house_round_credit ((lookupBJState table p).getD defaultBJPlayerState).bet *
                  settings.timeoutPenaltyPercent) / 100)) 0 false,
          blackjackStats := applyResultToStatsBucket (normalizeStatsBucket acct.blackjackStats)
            (house_round_credit ((lookupBJState table p).getD defaultBJPlayerState).bet +
              house_round_credit
                ((house_round_credit ((lookupBJState table p).getD defaultBJPlayerState).bet *
                  settings.timeoutPenaltyPercent) / 100)) 0 false } ∧
    (table.players.filter (fun x => x ≠ p) ≠ [] →
      ((∃ q, q ≠ p ∧
          currentTurnPlayer (blackjackEnforceTimeoutForTable accounts table settings fresh now).2 =
            some q ∧
          (blackjackEnforceTimeoutForTable accounts table settings fresh now).2.turnStartedEpoch =
            now) ∨
        (blackjackEnforceTimeoutForTable accounts table settings fresh now).2.phase = "finished")) ∧
    (∀ now2 : ℚ,
      lookupAccount
        (blackjackEnforceTimeoutForTable
          (blackjackEnforceTimeoutForTable accounts table settings fresh now).1
          (blackjackEnforceTimeoutForTable accounts table settings fresh now).2 settings fresh now2).1 p =
      lookupAccount (blackjackEnforceTimeoutForTable accounts table settings fresh now).1 p) := by
  have hred : blackjackEnforceTimeoutForTable accounts table settings fresh now =
      (if (blackjackEjectForTimeout accounts table p settings).2.phase ≠ "player_turns" then
        blackjackEjectForTimeout accounts table p settings
      else
        match currentTurnPlayer (blackjackEjectForTimeout accounts table p settings).2 with
        | none =>
          blackjackFinishRound (blackjackEjectForTimeout accounts table p settings).1
            (appendBJHistory (blackjackEjectForTimeout accounts table p settings).2
              "Dealer turn.") fresh now
        | some _ =>
          ((blackjackEjectForTimeout accounts table p settings).1,
            { (blackjackEjectForTimeout accounts table p settings).2 with
              turnStartedEpoch := now, lastUpdatedEpoch := now })) := by
    simp only [blackjackEnforceTimeoutForTable, hcur]
    rw [if_neg (by simp [hphase, hprog]), if_neg (not_le.mpr hstart),
      if_neg (not_lt.mpr helapsed)]
  set E := blackjackEjectForTimeout accounts table p settings with hE
  have hself := eject_accounts_self accounts table p settings acct hmem hacct
  by_cases hsolo : table.players.filter (fun x => x ≠ p) = []
  · have ht2 := eject_table_reset accounts table p settings hmem hsolo
    have hphase2 : E.2.phase = "waiting_for_players" := by rw [← hE] at ht2; rw [ht2]; rfl
    have hres : blackjackEnforceTimeoutForTable accounts table settings fresh now = E := by
      rw [hred, if_pos]
      rw [hphase2]
      decide
    have h1 : p ∉ (blackjackEnforceTimeoutForTable accounts table settings fresh now).2.players := by
      rw [hres, ← hE] at *
      rw [ht2]
      simp [defaultBJTable]
    have h2 : p ∉ (blackjackEnforceTimeoutForTable accounts table settings fresh now).2.turnOrder := by
      rw [hres, ht2]
      simp [defaultBJTable]
    refine ⟨h1, h2, ?_, fun h => absurd hsolo h, fun now2 => ?_⟩
    · rw [hres]
      exact hself
    · exact blackjackEnforce_preserves _ _ settings fresh now2 p h1 h2
  · obtain ⟨hpl, hto, hti, hph⟩ := eject_table_keep accounts table p settings hmem hsolo
    rw [← hE] at hpl hto hti hph
    have hphase2 : E.2.phase = "player_turns" := hph.trans hphase
    have hres0 : blackjackEnforceTimeoutForTable accounts table settings fresh now =
        (match currentTurnPlayer E.2 with
        | none => blackjackFinishRound E.1 (appendBJHistory E.2 "Dealer turn.") fresh now
        | some _ => (E.1, { E.2 with turnStartedEpoch := now, lastUpdatedEpoch := now })) := by
      rw [hred, if_neg (not_not_intro hphase2)]
    have hnm := eject_not_mem accounts table p settings hmem
    rw [← hE] at hnm
    cases hcurr : currentTurnPlayer E.2 with
    | some q =>
      have hres : blackjackEnforceTimeoutForTable accounts table settings fresh now =
          (E.1, { E.2 with turnStartedEpoch := now, lastUpdatedEpoch := now }) := by
        rw [hres0, hcurr]
      have h1 : p ∉ (blackjackEnforceTimeoutForTable accounts table settings fresh now).2.players := by
        rw [hres]
        exact hnm.1
      have h2 : p ∉ (blackjackEnforceTimeoutForTable accounts table settings fresh now).2.turnOrder := by
        rw [hres]
        exact hnm.2
      have hqmem : q ∈ E.2.turnOrder := currentTurnPlayer_mem E.2 q hcurr
      have hqne : q ≠ p := by
        rw [hto] at hqmem
        have := List.of_mem_filter hqmem
        exact of_decide_eq_true this
      refine ⟨h1, h2, ?_, fun _ => Or.inl ⟨q, hqne, ?_, ?_⟩, fun now2 => ?_⟩
      · rw [hres]
        exact hself
      · rw [hres]
        exact hcurr
      · rw [hres]
      · exact blackjackEnforce_preserves _ _ settings fresh now2 p h1 h2
    | none =>
      have hres : blackjackEnforceTimeoutForTable accounts table settings fresh now =
          blackjackFinishRound E.1 (appendBJHistory E.2 "Dealer turn.") fresh now := by
        rw [hres0, hcurr]
      have h1 : p ∉ (blackjackEnforceTimeoutForTable accounts table settings fresh now).2.players := by
        rw [hres, finishRound_table_players, appendBJHistory_players]
        exact hnm.1
      have h2 : p ∉ (blackjackEnforceTimeoutForTable accounts table settings fresh now).2.turnOrder := by
        rw [hres, finishRound_table_turnOrder]
        simp
      refine ⟨h1, h2, ?_, fun _ => Or.inr ?_, fun now2 => ?_⟩
      · rw [hres, blackjackFinishRound_accounts_other]
        · exact hself
        · rw [appendBJHistory_players]
          exact hnm.1
      · rw [hres]
        exact finishRound_table_phase _ _ _ _
      · exact blackjackEnforce_preserves _ _ settings fresh now2 p h1 h2

theorem blackjack_timeout_ejection_witness :
    currentTurnPlayer c8Table = some "P" ∧
    lookupAccount c8Accounts "P" = some c8Acct ∧
    "P" ∉ (blackjackEnforceTimeoutForTable c8Accounts c8Table c8Settings bjConstFresh 100).2.players ∧
    "P" ∉ (blackjackEnforceTimeoutForTable c8Accounts c8Table c8Settings bjConstFresh 100).2.turnOrder ∧
    (lookupAccount (blackjackEnforceTimeoutForTable c8Accounts c8Table c8Settings bjConstFresh 100).1
        "P").map Account.balance = some 875 := by
  have h := blackjack_timeout_ejection c8Accounts c8Table c8Settings bjConstFresh 100 "P" c8Acct rfl rfl
    (by norm_num [c8Table]) (by norm_num [c8Table, c8Settings]) rfl (by decide) rfl
  refine ⟨rfl, rfl, h.1, h.2.1, ?_⟩
  rw [h.2.2.1]
  have hbet : ((lookupBJState c8Table "P").getD defaultBJPlayerState).bet = 500 := rfl
  rw [hbet]
  have hpen : house_round_credit ((house_round_credit (500 : ℚ) *
      c8Settings.timeoutPenaltyPercent) / 100) = 125 := by
    norm_num [house_round_credit, quantizeTowardZero, c8Settings]
  rw [hpen]
  rw [Option.map_some']
  show some (if (0 : ℚ) < 125 then house_round_balance (c8Acct.balance - 125)
    else c8Acct.balance) = some 875
  rw [if_pos (by norm_num)]
  norm_num [c8Acct, house_round_balance, quantizeTowardZero]

theorem blackjack_timeout_sole_player_cex :
    currentTurnPlayer c8SoloTable = some "P" ∧
    c8SoloTable.phase = "player_turns" ∧ c8SoloTable.inProgress = true ∧
    (blackjackEnforceTimeoutForTable c8SoloAccounts c8SoloTable c8Settings bjConstFresh 100).2.phase =
      "waiting_for_players" ∧
    (blackjackEnforceTimeoutForTable c8SoloAccounts c8SoloTable c8Settings bjConstFresh 100).2.phase ≠
      "finished" ∧
    (blackjackEnforceTimeoutForTable c8SoloAccounts c8SoloTable c8Settings bjConstFresh 100).2.players =
      [] ∧
    (blackjackEnforceTimeoutForTable c8SoloAccounts c8SoloTable c8Settings bjConstFresh 100).2.inProgress
      = false := by
  have ht2 := eject_table_reset c8SoloAccounts c8SoloTable "P" c8Settings (by decide) (by decide)
  have henf : blackjackEnforceTimeoutForTable c8SoloAccounts c8SoloTable c8Settings bjConstFresh 100 =
      blackjackEjectForTimeout c8SoloAccounts c8SoloTable "P" c8Settings := by
    simp only [blackjackEnforceTimeoutForTable]
    rw [if_neg (by decide), if_neg (by norm_num [c8SoloTable, c8Table]),
      if_neg (by norm_num [c8SoloTable, c8Table, c8Settings])]
    have hc : currentTurnPlayer c8SoloTable = some "P" := rfl
    rw [hc]
    have hcond :
        (blackjackEjectForTimeout c8SoloAccounts c8SoloTable "P" c8Settings).2.phase ≠
          "player_turns" := by
      rw [ht2]
      decide
    exact if_pos hcond
  rw [henf, ht2]
  exact ⟨rfl, rfl, rfl, rfl, by decide, rfl, rfl⟩

/-- C7 (amended): the dealer always draws until the total reaches at least
17 (reshuffling a fresh 52-card deck whenever the deck list empties, so no
draw ever fails); the settlement ladder pays bust → loss, dealer bust →
2.5x for a natural and 2x otherwise, natural over non-natural dealer →
2.5x, dealer natural over non-natural player → loss (the rule the original
claim omits), then higher total → 2x, equal totals → push, lower total →
loss; and the 500-bet natural scenario pays exactly 1250 with recorded net
+750. -/
theorem blackjack_settlement_spec (cards deck : List BJCard)
    (fresh : ℕ → List BJCard) (hfresh : ∀ j, (fresh j).Perm bjFreshDeck)
    (dt : ℕ) (dn : Bool) (pt : ℕ) (pn : Bool) (status : String) (bet : ℚ) :
    17 ≤ blackjackHandTotal (dealerPlay cards deck fresh).1 ∧
    (((status = "busted" ∨ 21 < pt) →
      settleOutcome dt dn pt pn status bet =
        ("loss", 0, false, (settleOutcome dt dn pt pn status bet).2.2.2)) ∧
    (¬(status = "busted" ∨ 21 < pt) → 21 < dt → pn = true → dn = false →
      settleOutcome dt dn pt pn status bet =
        ("blackjack", house_round_credit (bet * (5/2)), true,
          (settleOutcome dt dn pt pn status bet).2.2.2)) ∧
    (¬(status = "busted" ∨ 21 < pt) → 21 < dt → ¬(pn = true ∧ dn = false) →
      settleOutcome dt dn pt pn status bet =
        ("win", house_round_credit (bet * 2), true,
          (settleOutcome dt dn pt pn status bet).2.2.2)) ∧
    (¬(status = "busted" ∨ 21 < pt) → dt ≤ 21 → pn = true → dn = false →
      settleOutcome dt dn pt pn status bet =
        ("blackjack", house_round_credit (bet * (5/2)), true,
          (settleOutcome dt dn pt pn status bet).2.2.2)) ∧
    (¬(status = "busted" ∨ 21 < pt) → dt ≤ 21 → dn = true → pn = false →
      settleOutcome dt dn pt pn status bet =
        ("loss", 0, false, (settleOutcome dt dn pt pn status bet).2.2.2)) ∧
    (¬(status = "busted" ∨ 21 < pt) → dt ≤ 21 → pn = dn → dt < pt →
      settleOutcome dt dn pt pn status bet =
        ("win", house_round_credit (bet * 2), true,
          (settleOutcome dt dn pt pn status bet).2.2.2)) ∧
    (¬(status = "busted" ∨ 21 < pt) → dt ≤ 21 → pn = dn → pt = dt →
      settleOutcome dt dn pt pn status bet =
        ("push", house_round_credit bet, false,
          (settleOutcome dt dn pt pn status bet).2.2.2)) ∧
    (¬(status = "busted" ∨ 21 < pt) → dt ≤ 21 → pn = dn → pt < dt →
      settleOutcome dt dn pt pn status bet =
        ("loss", 0, false, (settleOutcome dt dn pt pn status bet).2.2.2))) ∧
    ((lookupAccount (blackjackFinishRound c7Accounts c7Table bjConstFresh 100).1 "P").map
        Account.balance = some 1250 ∧
    (lookupAccount (blackjackFinishRound c7Accounts c7Table bjConstFresh 100).1 "P").map
      (fun a => a.stats.totalGameNet) = some 750 ∧
    (lookupAccount (blackjackFinishRound c7Accounts c7Table bjConstFresh 100).1 "P").map
      (fun a => (a.stats.roundsPlayed, a.stats.roundsWon)) = some (1, 1) ∧
    (lookupBJState (blackjackFinishRound c7Accounts c7Table bjConstFresh 100).2 "P").map
      (fun p => (p.payout, p.result)) = some (1250, some "blackjack") ∧
    (blackjackFinishRound c7Accounts c7Table bjConstFresh 100).2.phase = "finished") :=
  ⟨dealerPlay_reaches_17 cards deck fresh hfresh, settleOutcome_spec dt dn pt pn status bet,
    c7_scenario⟩

theorem blackjack_settlement_spec_witness :
    (∀ j, (bjConstFresh j).Perm bjFreshDeck) ∧
    17 ≤ blackjackHandTotal (dealerPlay [] [] bjConstFresh).1 ∧
    ¬(("stood" : String) = "busted" ∨ 21 < 20) ∧
    settleOutcome 19 false 20 false "stood" 500 =
      ("win", house_round_credit (500 * 2), true,
        (settleOutcome 19 false 20 false "stood" 500).2.2.2) :=
  ⟨fun _ => List.Perm.refl _,
    (blackjack_settlement_spec [] [] bjConstFresh (fun _ => List.Perm.refl _)
      19 false 20 false "stood" 500).1,
    by decide,
    (blackjack_settlement_spec [] [] bjConstFresh (fun _ => List.Perm.refl _)
      19 false 20 false "stood" 500).2.1.2.2.2.2.2.1
      (by decide) (by omega) rfl (by omega)⟩

/-- C7 counterexample: with a dealer natural 21 against a player 21 that is
not a natural, equal totals do not push — the player loses the bet. -/
theorem settleOutcome_push_cex :
    blackjackHandTotal [⟨"7", "S"⟩, ⟨"7", "H"⟩, ⟨"7", "D"⟩] = 21 ∧
    blackjackIsNatural [⟨"7", "S"⟩, ⟨"7", "H"⟩, ⟨"7", "D"⟩] = false ∧
    blackjackHandTotal [⟨"A", "S"⟩, ⟨"K", "H"⟩] = 21 ∧
    blackjackIsNatural [⟨"A", "S"⟩, ⟨"K", "H"⟩] = true ∧
    (settleOutcome 21 true 21 false "stood" 500).1 = "loss" ∧
    (settleOutcome 21 true 21 false "stood" 500).1 ≠ "push" ∧
    (settleOutcome 21 true 21 false "stood" 500).2.1 = 0 :=
  ⟨by decide, by decide, by decide, by decide, rfl, by decide, rfl⟩

/-- C9: at a flop state where the bot holds trips but its stack (5 cents)
is below the minimum bet (the big blind, 20 cents), `legal_actions` offers
`bet` with `min_bet` 0.20 above `max_bet` 0.05, and the bot's sizing
`max(min_bet, min(max_bet, ...))` returns a bet of 0.20 dollars — outside
the offered bounds — which the engine then rejects. -/
theorem bot_bet_exceeds_bounds :
    (legalActions c9State "Bot").actions = ["fold", "check", "bet", "all_in"] ∧
    (legalActions c9State "Bot").minBet = some (1/5) ∧
    (legalActions c9State "Bot").maxBet = some (1/20) ∧
    chooseBotAction c9State "Bot" (legalActions c9State "Bot") 1 = ("bet", some (1/5)) ∧
    ¬((1/5 : ℚ) ≤ 1/20) ∧
    applyAction c9State "Bot" "bet" (some 20) =
      (false, "Insufficient chips for this bet.", c9State) := by
  refine ⟨?_, ?_, ?_, c9_bot, by norm_num, by decide⟩
  · rw [c9_legal]
  · rw [c9_legal]
  · rw [c9_legal]

end Gambly
